import Mathlib

/-!
# ESP-PC-Monitor: a verification development of `src/main.cpp`

Shallow embedding of the telemetry receiver.

Modelling conventions
* `uint8_t`, `uint16_t`, `uint32_t` and `unsigned long` values are natural numbers; every
  operation that can wrap on the 32-bit target is followed by an explicit `% U32`.
* `Stats`, `acceptFrame` and `mapToY` carry `float` values as exact rationals (no rounding,
  no NaN, no infinities); they are used for the integer fields, the ring buffer and the
  order and bound properties.  What the program computes in `float` arithmetic (smoothing,
  latency, loss percentage) is given in binary32 in the section "Binary32 arithmetic".
* The serial port is a FIFO of bytes, each stamped with the millisecond at which it becomes
  readable, together with a free-running millisecond clock.  Reading a byte takes no time;
  a busy-wait iteration that finds no byte lets one millisecond pass.
* `Serial.read()` is only called when a byte is available, so it returns that byte (a value
  in `0 .. 255`); the test `r >= 0` then holds and the cast `(uint8_t)r` is the identity.
-/

namespace EspMonitor

/-! ## Constants -/

/-- Size of the `uint32_t` / `unsigned long` value space. -/
def U32 : Nat := 4294967296

/-- Source: `#define SCREEN_WIDTH 128`. -/
def SCREEN_WIDTH : Nat := 128

/-- Source: `#define SCREEN_HEIGHT 64`. -/
def SCREEN_HEIGHT : Nat := 64

/-- Source: `const uint8_t START_BYTE = 0xAA`. -/
def START_BYTE : Nat := 170

/-- Source: `const size_t PAYLOAD_LEN = 4*4 + 4`. -/
def PAYLOAD_LEN : Nat := 4 * 4 + 4

/-- Source: `const size_t FRAME_LEN = 1 + PAYLOAD_LEN`. -/
def FRAME_LEN : Nat := 1 + PAYLOAD_LEN

/-- Source: `const float EMA_ALPHA = 0.25f`. -/
def EMA_ALPHA : ℚ := 1 / 4

/-- Source: `const uint16_t GRAPH_LEN = SCREEN_WIDTH`. -/
def GRAPH_LEN : Nat := SCREEN_WIDTH

/-- Source: `const uint32_t LOSS_WINDOW = 200`. -/
def LOSS_WINDOW : Nat := 200

/-- The value `0xFFFFFFFF` with which `lastSeq` is initialised and compared. -/
def NO_SEQ : Nat := 4294967295

/-! ## The serial port and the clock -/

/-- The environment of `loop()`: the clock in milliseconds since boot and the bytes still to be
read, each with the millisecond at which it reaches the receive buffer. -/
structure World where
  now : Nat
  rx : List (Nat × Nat)
deriving DecidableEq

/-- Source: `millis()`, an `unsigned long` that wraps at 2^32. -/
def millis (w : World) : Nat := w.now % U32

/-- Subtraction of two `unsigned long` values, as in `millis() - start`. -/
def subU32 (a b : Nat) : Nat := (a + U32 - b % U32) % U32

/-- Source: the payload collection loop of `loop()`,
`while (got < PAYLOAD_LEN && millis() - start < 50) { if (Serial.available() > 0) {...} }`.
Each unit of fuel is one iteration; `none` means the fuel ran out. -/
def collect : Nat → Nat → World → List Nat → Option (World × List Nat)
  | 0, _, _, _ => none
  | fuel + 1, start, w, got =>
    if got.length < PAYLOAD_LEN ∧ subU32 (millis w) start < 50 then
      match w.rx with
      | [] => collect fuel start { w with now := w.now + 1 } got
      | (t, r) :: rest =>
        if t ≤ w.now then
          collect fuel start { w with rx := rest } (got ++ [r])
        else
          collect fuel start { w with now := w.now + 1 } got
    else
      some (w, got)

/-- Fuel that always suffices for `collect`: at most `PAYLOAD_LEN` reads and 50 idle
milliseconds, plus the final test. -/
def COLLECT_FUEL : Nat := PAYLOAD_LEN + 50 + 1

/-- Source: the frame reading loop of `loop()`, `while (Serial.available() > 0) { ... }`,
over an arbitrary frame handler `pf` (in the program: `processFrame`), which is given the
reading of `millis()` at the moment of the call and the collected payload. -/
def readFrames {σ : Type} (pf : σ → Nat → List Nat → σ) :
    Nat → World → σ → Option (World × σ)
  | 0, _, _ => none
  | fuel + 1, w, s =>
    match w.rx with
    | [] => some (w, s)
    | (t, b) :: rest =>
      if t ≤ w.now then
        let w1 : World := { w with rx := rest }
        if b = START_BYTE then
          match collect COLLECT_FUEL (millis w1) w1 [] with
          | none => none
          | some (w2, got) =>
            if got.length = PAYLOAD_LEN then
              readFrames pf fuel w2 (pf s (millis w2) got)
            else
              readFrames pf fuel w2 s
        else
          readFrames pf fuel w1 s
      else
        some (w, s)

/-- The frame reading part of one call of `loop()`: every iteration of the outer loop removes
at least one byte, so `rx.length + 1` iterations are enough. -/
def serialLoop {σ : Type} (pf : σ → Nat → List Nat → σ) (w : World) (s : σ) :
    Option (World × σ) :=
  readFrames pf (w.rx.length + 1) w s

/-! ## Statistics -/

/-- The global variables written by `processFrame`. -/
structure Stats where
  graphCPU : List ℚ
  graphRAM : List ℚ
  graphIdx : Nat
  cpuEMA : ℚ
  ramEMA : ℚ
  tempEMA : ℚ
  lastSeq : Nat
  recvCount : Nat
  lostCount : Nat
  windowRecv : Nat
  windowLost : Nat
  latencyEMA : ℚ
deriving DecidableEq

/-- The initial values of the globals, after `setup()` has zeroed the two graph arrays. -/
def Stats.init : Stats where
  graphCPU := List.replicate GRAPH_LEN 0
  graphRAM := List.replicate GRAPH_LEN 0
  graphIdx := 0
  cpuEMA := 0
  ramEMA := 0
  tempEMA := 0
  lastSeq := NO_SEQ
  recvCount := 0
  lostCount := 0
  windowRecv := 0
  windowLost := 0
  latencyEMA := 0

/-- The 32-bit little-endian word at offset `off` of a buffer, as `memcpy(&x, payload + off, 4)`
reads it on the little-endian target. -/
def le32 (payload : List Nat) (off : Nat) : Nat :=
  payload.getD off 0 + 256 * payload.getD (off + 1) 0 + 65536 * payload.getD (off + 2) 0
    + 16777216 * payload.getD (off + 3) 0

/-- The value of an IEEE 754 single-precision bit pattern, as a rational.  Patterns with
exponent field 255 (infinities, NaN) have no rational value; they are read by the same
formula as the normal numbers. -/
def f32 (bits : Nat) : ℚ :=
  let sign := bits / 2147483648 % 2
  let e := bits / 8388608 % 256
  let m := bits % 8388608
  let mag : ℚ := if e = 0 then (m : ℚ) / 2 ^ 149 else ((8388608 + m : Nat) : ℚ) * 2 ^ e / 2 ^ 150
  if sign = 1 then -mag else mag

/-- Source: the body of `processFrame` after the five `memcpy` calls, on the decoded fields;
`ms` is the reading of `millis()`.  The integer lines are those of the program; the `float`
lines are carried out without rounding, and their binary32 form is `smooth32`. -/
def acceptFrame (s : Stats) (ms : Nat) (cpu ram temp ts_ms : ℚ) (seq : Nat) : Stats :=
  -- sequence & loss
  let s1 : Stats :=
    if s.lastSeq = NO_SEQ then
      { s with lastSeq := seq }
    else
      let expected := (s.lastSeq + 1) % U32
      let s0 : Stats :=
        if seq ≠ expected then
          if seq > expected then
            let missed := subU32 seq expected
            { s with lostCount := (s.lostCount + missed) % U32,
                     windowLost := (s.windowLost + missed) % U32 }
          else s
        else s
      { s0 with lastSeq := seq }
  let s2 : Stats :=
    { s1 with recvCount := (s1.recvCount + 1) % U32, windowRecv := (s1.windowRecv + 1) % U32 }
  -- latency
  let local_ms : ℚ := (ms : ℚ)
  let latency0 : ℚ := local_ms - ts_ms
  let latency : ℚ := if latency0 < 0 then |latency0| else latency0
  let latencyEMA : ℚ :=
    if s2.latencyEMA = 0 then latency else EMA_ALPHA * latency + (1 - EMA_ALPHA) * s2.latencyEMA
  -- EMA for values
  let cpuEMA : ℚ := if s2.cpuEMA = 0 then cpu else EMA_ALPHA * cpu + (1 - EMA_ALPHA) * s2.cpuEMA
  let ramEMA : ℚ := if s2.ramEMA = 0 then ram else EMA_ALPHA * ram + (1 - EMA_ALPHA) * s2.ramEMA
  let tempEMA : ℚ :=
    if s2.tempEMA = 0 then temp else EMA_ALPHA * temp + (1 - EMA_ALPHA) * s2.tempEMA
  -- graph store
  { s2 with
    latencyEMA := latencyEMA
    cpuEMA := cpuEMA
    ramEMA := ramEMA
    tempEMA := tempEMA
    graphCPU := s2.graphCPU.set s2.graphIdx cpuEMA
    graphRAM := s2.graphRAM.set s2.graphIdx ramEMA
    graphIdx := (s2.graphIdx + 1) % GRAPH_LEN }

/-- Source: `processFrame(payload, len)`, with `len` the length of the buffer passed; `ms` is
the reading of `millis()` during the call. -/
def processFrame (s : Stats) (ms : Nat) (payload : List Nat) : Stats :=
  if payload.length < PAYLOAD_LEN then s
  else
    acceptFrame s ms (f32 (le32 payload 0)) (f32 (le32 payload 4)) (f32 (le32 payload 8))
      (f32 (le32 payload 12)) (le32 payload 16)

/-- Source: `mapToY`; `constrain` is the Arduino macro
`((amt)<(low)?(low):((amt)>(high)?(high):(amt)))`. -/
def constrain (amt low high : ℚ) : ℚ :=
  if amt < low then low else if amt > high then high else amt

/-- The C library `round`: to the nearest integer, halfway cases away from zero. -/
def cround (x : ℚ) : Int :=
  if 0 ≤ x then Int.floor (x + 1 / 2) else Int.ceil (x - 1 / 2)

/-- Source: `int mapToY(float val)`. -/
def mapToY (val : ℚ) : Int :=
  let v := constrain val 0 100
  let y : Int := cround ((1 - v / 100) * ((SCREEN_HEIGHT : ℚ) - 1))
  let y : Int := if y < 0 then 0 else y
  let y : Int := if y ≥ (SCREEN_HEIGHT : Int) then (SCREEN_HEIGHT : Int) - 1 else y
  y

/-- Source: the indices `idx1`, `idx2` of `drawGraphView`: column `x` of the display shows
the entry at `(graphIdx + x) % GRAPH_LEN`. -/
def graphReadIdx (s : Stats) (x : Nat) : Nat := (s.graphIdx + x) % GRAPH_LEN

/-- The CPU series in the order in which `drawGraphView` reads it, columns `0 .. GRAPH_LEN-1`. -/
def readCPU (s : Stats) : List ℚ :=
  (List.range GRAPH_LEN).map (fun x => s.graphCPU.getD (graphReadIdx s x) 0)

/-- The RAM series in the order in which `drawGraphView` reads it, columns `0 .. GRAPH_LEN-1`. -/
def readRAM (s : Stats) : List ℚ :=
  (List.range GRAPH_LEN).map (fun x => s.graphRAM.getD (graphReadIdx s x) 0)

/-- The five decoded fields of a payload. -/
structure Frame where
  cpu : ℚ
  ram : ℚ
  temp : ℚ
  timestamp_ms : ℚ
  sequence : Nat
deriving DecidableEq

/-- The body of `processFrame` on a decoded frame; `ms` is the reading of `millis()`. -/
def accept (s : Stats) (ms : Nat) (f : Frame) : Stats :=
  acceptFrame s ms f.cpu f.ram f.temp f.timestamp_ms f.sequence

/-- Successive calls of `processFrame`, each with its reading of `millis()`, with nothing in
between that touches the statistics. -/
def runFrames (s : Stats) (fs : List (Nat × Frame)) : Stats :=
  fs.foldl (fun st p => accept st p.1 p.2) s

/-- A frame with the given sequence number and all measurements zero. -/
def seqFrame (n : Nat) : Nat × Frame := (0, ⟨0, 0, 0, 0, n⟩)

/-- The states after each of the calls made by `runFrames`, in order. -/
def statesAfter : Stats → List (Nat × Frame) → List Stats
  | _, [] => []
  | s, p :: fs => accept s p.1 p.2 :: statesAfter (accept s p.1 p.2) fs

/-- A frame with sequence number `n`, cpu `n + 1` and ram `2 n + 1`. -/
def rampFrame (n : Nat) : Nat × Frame := (0, ⟨(n : ℚ) + 1, 2 * (n : ℚ) + 1, 0, 0, n⟩)

/-! ## Byte streams -/

/-- The bytes of a stream of frames: each chunk is a run of bytes preceding a frame and the
payload of the frame, which is sent after the start byte; `tail` follows the last frame. -/
def streamOf : List (List Nat × List Nat) → List Nat → List Nat
  | [], tail => tail
  | (noise, payload) :: cs, tail => noise ++ START_BYTE :: (payload ++ streamOf cs tail)

/-- The bytes `bs`, all reaching the receive buffer at millisecond `t`. -/
def stamp (t : Nat) (bs : List Nat) : List (Nat × Nat) := bs.map (fun b => (t, b))

/-- A frame handler that only records the payloads it is given, in the order of the calls. -/
def logFrame (log : List (List Nat)) (_ms : Nat) (payload : List Nat) : List (List Nat) :=
  log ++ [payload]

/-! ## The control loop -/

/-- The globals of `loop()` other than the statistics. -/
structure LoopVars where
  lastDraw : Nat
  lastFpsTime : Nat
  framesThisSecond : Nat
  fpsVal : ℚ
  graphMode : Bool
  lastButtonMillis : Nat
deriving DecidableEq

/-- The initial values of these globals, after `setup()` has stored two readings of
`millis()` in `lastDraw` and `lastFpsTime`. -/
def LoopVars.init (t1 t2 : Nat) : LoopVars where
  lastDraw := t1
  lastFpsTime := t2
  framesThisSecond := 0
  fpsVal := 0
  graphMode := true
  lastButtonMillis := 0

/-- Source: the button block of `loop()`; `low` says that `digitalRead(BUTTON_PIN) == LOW`
(the input is active) and `now` is the reading of `millis()`. -/
def buttonStep (v : LoopVars) (low : Bool) (now : Nat) : LoopVars :=
  if low then
    if subU32 now v.lastButtonMillis > 300 then
      { v with graphMode := !v.graphMode, lastButtonMillis := now }
    else v
  else v

/-- The button block over successive calls of `loop()`, each poll given as the reading of
`millis()` and the state of the input. -/
def runPolls (v : LoopVars) (polls : List (Nat × Bool)) : LoopVars :=
  polls.foldl (fun st p => buttonStep st p.2 p.1) v

/-- The clock readings of the polls on which `graphMode` changed, in order. -/
def toggleTimes : LoopVars → List (Nat × Bool) → List Nat
  | _, [] => []
  | v, p :: ps =>
    if (buttonStep v p.2 p.1).graphMode ≠ v.graphMode then
      p.1 :: toggleTimes (buttonStep v p.2 p.1) ps
    else
      toggleTimes (buttonStep v p.2 p.1) ps

/-- Source: the window reset of the once-per-second block of `loop()`,
`if (windowRecv + windowLost > LOSS_WINDOW) { windowRecv = 0; windowLost = 0; }`, with the
`uint32_t` sum. -/
def tick (s : Stats) : Stats :=
  if (s.windowRecv + s.windowLost) % U32 > LOSS_WINDOW then
    { s with windowRecv := 0, windowLost := 0 }
  else s

/-- Source: the FPS block of `loop()`; `ms1` and `ms2` are the two readings of `millis()`,
`framesThisSecond` is a `uint16_t`. -/
def fpsStep (s : Stats) (v : LoopVars) (ms1 ms2 : Nat) : Stats × LoopVars :=
  let v1 : LoopVars := { v with framesThisSecond := (v.framesThisSecond + 1) % 65536 }
  if subU32 ms1 v1.lastFpsTime ≥ 1000 then
    (tick s, { v1 with fpsVal := (v1.framesThisSecond : ℚ), framesThisSecond := 0,
                       lastFpsTime := ms2 })
  else
    (s, v1)

/-- What can change the statistics: an accepted frame, with the reading of `millis()` during
`processFrame`, or a once-per-second tick. -/
inductive Event where
  | frame (ms : Nat) (f : Frame)
  | tick

/-- The effect of one event on the statistics. -/
def step (s : Stats) : Event → Stats
  | Event.frame ms f => accept s ms f
  | Event.tick => tick s

/-- The statistics after a sequence of events. -/
def runEvents (s : Stats) (es : List Event) : Stats :=
  es.foldl step s

/-- Source: the last two statements of `mapToY` before the `return`,
`if (y < 0) y = 0; if (y >= SCREEN_HEIGHT) y = SCREEN_HEIGHT - 1;`. -/
def clampRow (y : Int) : Int :=
  let y : Int := if y < 0 then 0 else y
  let y : Int := if y ≥ (SCREEN_HEIGHT : Int) then (SCREEN_HEIGHT : Int) - 1 else y
  y

/-! ## Binary32 arithmetic

The `float` lines of the program, on the values of the target: IEEE 754 binary32 with
rounding to nearest, ties to even, every operation rounded on its own (no fused
multiply-add).  The sign of a zero is not kept; nothing in the program depends on it. -/

/-- A `float`: NaN, an infinity (`neg` for the negative one), or a finite number given by
its value. -/
inductive F32 where
  | nan : F32
  | inf (neg : Bool) : F32
  | fin (q : ℚ) : F32
deriving DecidableEq

/-- Rounding to the nearest integer, halfway cases to the even one. -/
def roundEven (m : ℚ) : Int :=
  let f : Int := Int.floor m
  if m - f < 1 / 2 then f else if 1 / 2 < m - f then f + 1 else if f % 2 = 0 then f else f + 1

/-- The nearest multiple of the binary32 unit in the last place of a magnitude `q`: for
`2^e <= q < 2^(e+1)` the unit is `2^(e-23)` (24 significant bits), and `2^(-149)` below
`2^(-126)` (subnormal numbers).  The overflow test is made by `F32.ofRat`. -/
def roundMag (q : ℚ) : ℚ :=
  if q ≤ 0 then 0
  else
    let e : Int := max (Int.log 2 q) (-126)
    (roundEven (q / 2 ^ (e - 23)) : ℚ) * 2 ^ (e - 23)

/-- The binary32 result of an operation whose exact result is `q`: rounded to nearest, an
infinity when the rounded magnitude reaches `2^128`. -/
def F32.ofRat (q : ℚ) : F32 :=
  if 2 ^ 128 ≤ roundMag |q| then F32.inf (decide (q < 0))
  else F32.fin (if q < 0 then -roundMag |q| else roundMag |q|)

/-- Float negation. -/
def F32.neg : F32 → F32
  | F32.nan => F32.nan
  | F32.inf s => F32.inf (!s)
  | F32.fin q => F32.fin (-q)

/-- Float addition. -/
def F32.add : F32 → F32 → F32
  | F32.fin a, F32.fin b => F32.ofRat (a + b)
  | F32.fin _, F32.inf s => F32.inf s
  | F32.inf s, F32.fin _ => F32.inf s
  | F32.inf s, F32.inf t => if s = t then F32.inf s else F32.nan
  | _, _ => F32.nan

/-- Float subtraction. -/
def F32.sub (a b : F32) : F32 := F32.add a (F32.neg b)

/-- Float multiplication. -/
def F32.mul : F32 → F32 → F32
  | F32.fin a, F32.fin b => F32.ofRat (a * b)
  | F32.fin a, F32.inf s => if a = 0 then F32.nan else F32.inf (xor (decide (a < 0)) s)
  | F32.inf s, F32.fin b => if b = 0 then F32.nan else F32.inf (xor s (decide (b < 0)))
  | F32.inf s, F32.inf t => F32.inf (xor s t)
  | _, _ => F32.nan

/-- Float division; a finite non-zero number divided by zero gives the infinity of its
sign (the zero taken as positive). -/
def F32.div : F32 → F32 → F32
  | F32.fin a, F32.fin b =>
    if b = 0 then (if a = 0 then F32.nan else F32.inf (decide (a < 0))) else F32.ofRat (a / b)
  | F32.fin _, F32.inf _ => F32.fin 0
  | F32.inf s, F32.fin b => F32.inf (xor s (decide (b < 0)))
  | _, _ => F32.nan

/-- The comparison `a < b` of floats: false when an operand is NaN. -/
def F32.isLt : F32 → F32 → Bool
  | F32.fin a, F32.fin b => decide (a < b)
  | F32.fin _, F32.inf s => !s
  | F32.inf s, F32.fin _ => s
  | F32.inf s, F32.inf t => s && !t
  | _, _ => false

/-- The comparison `a == b` of floats: false when an operand is NaN. -/
def F32.isEq : F32 → F32 → Bool
  | F32.fin a, F32.fin b => decide (a = b)
  | F32.inf s, F32.inf t => s == t
  | _, _ => false

/-- The C library `fabs`. -/
def F32.abs : F32 → F32
  | F32.nan => F32.nan
  | F32.inf _ => F32.inf false
  | F32.fin q => F32.fin |q|

/-- The conversion `(float)n` of an unsigned integer. -/
def F32.ofNat (n : Nat) : F32 := F32.ofRat (n : ℚ)

/-- A float is non-negative when `x >= 0` holds for it: a finite number at least 0 or the
positive infinity; NaN is not. -/
def F32.nonneg : F32 → Prop
  | F32.nan => False
  | F32.inf s => s = false
  | F32.fin q => 0 ≤ q

/-- The float read by `memcpy` from a 32-bit pattern: exponent field 255 is an infinity
(fraction zero) or NaN, every other pattern has the value given by `f32`. -/
def decode32 (bits : Nat) : F32 :=
  if bits / 8388608 % 256 = 255 then
    if bits % 8388608 = 0 then F32.inf (decide (bits / 2147483648 % 2 = 1)) else F32.nan
  else F32.fin (f32 bits)

/-- The five fields of a payload as `processFrame` reads them. -/
structure Frame32 where
  cpu : F32
  ram : F32
  temp : F32
  timestamp_ms : F32
  sequence : Nat

/-- Source: the five `memcpy` calls of `processFrame`. -/
def decodeFrame32 (payload : List Nat) : Frame32 where
  cpu := decode32 (le32 payload 0)
  ram := decode32 (le32 payload 4)
  temp := decode32 (le32 payload 8)
  timestamp_ms := decode32 (le32 payload 12)
  sequence := le32 payload 16

/-- The four `float` globals that `processFrame` smooths. -/
structure Ema32 where
  cpuEMA : F32
  ramEMA : F32
  tempEMA : F32
  latencyEMA : F32

/-- Their initial values. -/
def Ema32.init : Ema32 where
  cpuEMA := F32.fin 0
  ramEMA := F32.fin 0
  tempEMA := F32.fin 0
  latencyEMA := F32.fin 0

/-- Source: the latency sample of `processFrame`,
`local_ms = (float)millis(); latency = local_ms - ts_ms; if (latency < 0) latency = fabs(latency);`. -/
def latency32 (ms : Nat) (ts_ms : F32) : F32 :=
  let local_ms : F32 := F32.ofNat ms
  let latency : F32 := F32.sub local_ms ts_ms
  if F32.isLt latency (F32.fin 0) then F32.abs latency else latency

/-- Source: the four smoothing statements of `processFrame`, in binary32 arithmetic; `ms` is
the reading of `millis()`. -/
def smooth32 (e : Ema32) (ms : Nat) (f : Frame32) : Ema32 where
  latencyEMA :=
    if F32.isEq e.latencyEMA (F32.fin 0) then latency32 ms f.timestamp_ms
    else F32.add (F32.mul (F32.fin EMA_ALPHA) (latency32 ms f.timestamp_ms))
      (F32.mul (F32.sub (F32.fin 1) (F32.fin EMA_ALPHA)) e.latencyEMA)
  cpuEMA :=
    if F32.isEq e.cpuEMA (F32.fin 0) then f.cpu
    else F32.add (F32.mul (F32.fin EMA_ALPHA) f.cpu)
      (F32.mul (F32.sub (F32.fin 1) (F32.fin EMA_ALPHA)) e.cpuEMA)
  ramEMA :=
    if F32.isEq e.ramEMA (F32.fin 0) then f.ram
    else F32.add (F32.mul (F32.fin EMA_ALPHA) f.ram)
      (F32.mul (F32.sub (F32.fin 1) (F32.fin EMA_ALPHA)) e.ramEMA)
  tempEMA :=
    if F32.isEq e.tempEMA (F32.fin 0) then f.temp
    else F32.add (F32.mul (F32.fin EMA_ALPHA) f.temp)
      (F32.mul (F32.sub (F32.fin 1) (F32.fin EMA_ALPHA)) e.tempEMA)

/-- The smoothed values after successive calls of `processFrame`, each with its reading of
`millis()`; the per-second tick does not touch them. -/
def runSmooth32 (e : Ema32) (fs : List (Nat × Frame32)) : Ema32 :=
  fs.foldl (fun st p => smooth32 st p.1 p.2) e

/-- Source: the `lossPct` computation of `drawStaticView`,
`(100.0f * (float)windowLost) / (float)(windowRecv + windowLost)` under the guard
`windowRecv + windowLost > 0`, with the `uint32_t` sum. -/
def lossPct (s : Stats) : F32 :=
  if (s.windowRecv + s.windowLost) % U32 > 0 then
    F32.div (F32.mul (F32.fin 100) (F32.ofNat s.windowLost))
      (F32.ofNat ((s.windowRecv + s.windowLost) % U32))
  else F32.fin 0

/-- A frame with the given finite cpu value, everything else zero. -/
def cpuFrame32 (q : ℚ) : Nat × Frame32 := (0, ⟨F32.fin q, F32.fin 0, F32.fin 0, F32.fin 0, 0⟩)

/-- A payload whose timestamp field holds the NaN bit pattern `0x7FC00000`; all other
fields are zero except the sequence number 1. -/
def nanPayload : List Nat :=
  [0, 0, 0, 0, 0, 0, 0, 0, 0, 0, 0, 0, 0, 0, 192, 127, 1, 0, 0, 0]

end EspMonitor

namespace EspMonitor

/-! ## The frame reading loop -/

theorem subU32_self_add (n e : Nat) (he : e < U32) :
    subU32 ((n + e) % U32) (n % U32) = e := by
  unfold subU32 U32 at *
  omega

/-- When the bytes still missing from the payload are all readable, `collect` reads exactly
those and returns at once. -/
theorem collect_ready (start now : Nat) (h50 : subU32 (now % U32) start < 50)
    (rest : List (Nat × Nat)) :
    ∀ (pre : List (Nat × Nat)) (got : List Nat) (fuel : Nat),
      (∀ p ∈ pre, p.1 ≤ now) → got.length + pre.length = PAYLOAD_LEN → pre.length + 1 ≤ fuel →
      collect fuel start ⟨now, pre ++ rest⟩ got = some (⟨now, rest⟩, got ++ pre.map Prod.snd) := by
  intro pre
  induction pre with
  | nil =>
    intro got fuel _ hlen hfuel
    obtain ⟨f, rfl⟩ : ∃ f, fuel = f + 1 := ⟨fuel - 1, by omega⟩
    simp only [List.length_nil, Nat.add_zero] at hlen
    simp [collect, hlen]
  | cons p pre ih =>
    intro got fuel hav hlen hfuel
    obtain ⟨f, rfl⟩ : ∃ f, fuel = f + 1 := ⟨fuel - 1, by omega⟩
    obtain ⟨t, r⟩ := p
    have ht : t ≤ now := hav (t, r) (List.mem_cons_self _ _)
    simp only [List.length_cons] at hlen hfuel
    have hlt : got.length < PAYLOAD_LEN := by omega
    have := ih (got ++ [r]) f (fun q hq => hav q (List.mem_cons_of_mem _ hq))
      (by simp only [List.length_append, List.length_singleton]; omega) (by omega)
    simp only [collect, millis, hlt, h50, and_self, if_true, List.cons_append, ht]
    rw [this]
    simp

/-- When fewer than `PAYLOAD_LEN` bytes become readable within 50 ms of `start`, `collect`
reads those, waits until the 50 ms have passed and returns the short buffer. -/
theorem collect_stall (now0 : Nat) (later : List (Nat × Nat))
    (hlater : ∀ p ∈ later.head?, now0 + 50 ≤ p.1) :
    ∀ (n : Nat) (part : List (Nat × Nat)) (got : List Nat) (e fuel : Nat),
      part.length + (50 - e) = n → e ≤ 50 → (e < 50 ∨ part = []) →
      (∀ p ∈ part, p.1 < now0 + 50) → got.length + part.length < PAYLOAD_LEN → n + 1 ≤ fuel →
      collect fuel (now0 % U32) ⟨now0 + e, part ++ later⟩ got
        = some (⟨now0 + 50, later⟩, got ++ part.map Prod.snd) := by
  intro n
  induction n with
  | zero =>
    intro part got e fuel hn he _ _ _ hfuel
    obtain ⟨f, rfl⟩ : ∃ f, fuel = f + 1 := ⟨fuel - 1, by omega⟩
    have hp : part = [] := List.length_eq_zero.mp (by omega)
    have he50 : e = 50 := by omega
    subst hp he50
    have hsub := subU32_self_add now0 50 (by unfold U32; omega)
    simp [collect, millis, hsub]
  | succ n ih =>
    intro part got e fuel hn he hinv hpart hlen hfuel
    obtain ⟨f, rfl⟩ : ∃ f, fuel = f + 1 := ⟨fuel - 1, by omega⟩
    have he50 : e < 50 := by
      rcases hinv with h | h
      · exact h
      · subst h; simp only [List.length_nil] at hn; omega
    have hsub := subU32_self_add now0 e (by unfold U32; omega)
    have hlt : got.length < PAYLOAD_LEN := by omega
    cases part with
    | nil =>
      have hstep := ih [] got (e + 1) f (by simp only [List.length_nil] at hn ⊢; omega)
        (by omega) (Or.inr rfl) (by simp) hlen (by omega)
      simp only [List.nil_append, List.map_nil, List.append_nil] at hstep ⊢
      cases later with
      | nil =>
        simp only [collect, millis, hsub, hlt, he50, and_self, if_true]
        exact hstep
      | cons q later =>
        obtain ⟨t, r⟩ := q
        have ht : now0 + 50 ≤ t := hlater (t, r) (by simp)
        have hnot : ¬ t ≤ now0 + e := by omega
        simp only [collect, millis, hsub, hlt, he50, and_self, if_true, hnot, if_false]
        exact hstep
    | cons q part =>
      obtain ⟨t, r⟩ := q
      simp only [List.length_cons] at hn hlen
      by_cases ht : t ≤ now0 + e
      · have hstep := ih part (got ++ [r]) e f (by omega) he (Or.inl he50)
          (fun p hp => hpart p (List.mem_cons_of_mem _ hp))
          (by simp only [List.length_append, List.length_singleton]; omega) (by omega)
        simp only [collect, millis, hsub, hlt, he50, and_self, if_true, List.cons_append, ht]
        rw [hstep]
        simp
      · have htlt : t < now0 + 50 := hpart (t, r) (List.mem_cons_self _ _)
        have hstep := ih ((t, r) :: part) got (e + 1) f
          (by simp only [List.length_cons]; omega) (by omega) (Or.inl (by omega)) hpart
          (by simp only [List.length_cons]; omega) (by omega)
        simp only [collect, millis, hsub, hlt, he50, and_self, if_true, List.cons_append, ht,
          if_false]
        exact hstep

/-- Readable bytes other than the start byte are read and dropped, one per iteration. -/
theorem readFrames_noise {σ : Type} (pf : σ → Nat → List Nat → σ) (now : Nat)
    (rest : List (Nat × Nat)) (s : σ) :
    ∀ (pre : List (Nat × Nat)) (fuel : Nat),
      (∀ p ∈ pre, p.1 ≤ now ∧ p.2 ≠ START_BYTE) → pre.length ≤ fuel →
      readFrames pf fuel ⟨now, pre ++ rest⟩ s
        = readFrames pf (fuel - pre.length) ⟨now, rest⟩ s := by
  intro pre
  induction pre with
  | nil => intro fuel _ _; simp
  | cons p pre ih =>
    intro fuel hpre hfuel
    obtain ⟨f, rfl⟩ : ∃ f, fuel = f + 1 := ⟨fuel - 1, by simp only [List.length_cons] at hfuel; omega⟩
    obtain ⟨t, b⟩ := p
    obtain ⟨ht, hb⟩ := hpre (t, b) (List.mem_cons_self _ _)
    simp only [List.length_cons] at hfuel
    have hstep := ih f (fun q hq => hpre q (List.mem_cons_of_mem _ hq)) (by omega)
    have hb' : ¬ b = START_BYTE := hb
    have hf : f + 1 - (pre.length + 1) = f - pre.length := by omega
    simp only [readFrames, List.cons_append, ht, if_true, hb', if_false, List.length_cons, hf]
    exact hstep

/-- A readable start byte followed by `PAYLOAD_LEN` readable bytes: the handler is called
once, with these bytes, whatever their values. -/
theorem readFrames_frame {σ : Type} (pf : σ → Nat → List Nat → σ) (now t : Nat)
    (pl rest : List (Nat × Nat)) (s : σ) (fuel : Nat) (ht : t ≤ now)
    (hpl : ∀ p ∈ pl, p.1 ≤ now) (hlen : pl.length = PAYLOAD_LEN) :
    readFrames pf (fuel + 1) ⟨now, (t, START_BYTE) :: (pl ++ rest)⟩ s
      = readFrames pf fuel ⟨now, rest⟩ (pf s (now % U32) (pl.map Prod.snd)) := by
  have hsub : subU32 (now % U32) (now % U32) < 50 := by
    have := subU32_self_add now 0 (by unfold U32; omega)
    simp only [Nat.add_zero] at this
    omega
  have hc := collect_ready (now % U32) now hsub rest pl [] COLLECT_FUEL hpl
    (by simp only [List.length_nil]; omega) (by unfold COLLECT_FUEL; omega)
  simp only [List.nil_append] at hc
  simp only [readFrames, ht, if_true, millis, hc, List.length_map, hlen]

/-- The frame reading loop on a stream of frames separated by runs of bytes other than the
start byte, all of it readable: the handler is called once per frame, in order, and the
receive buffer is left empty. -/
theorem readFrames_stream {σ : Type} (pf : σ → Nat → List Nat → σ) (now : Nat)
    (tail : List Nat) (htail : START_BYTE ∉ tail) :
    ∀ (chunks : List (List Nat × List Nat)) (rx : List (Nat × Nat)) (s : σ) (fuel : Nat),
      rx.map Prod.snd = streamOf chunks tail → (∀ p ∈ rx, p.1 ≤ now) →
      (∀ c ∈ chunks, START_BYTE ∉ c.1 ∧ c.2.length = PAYLOAD_LEN) → rx.length + 1 ≤ fuel →
      readFrames pf fuel ⟨now, rx⟩ s
        = some (⟨now, []⟩, chunks.foldl (fun st c => pf st (now % U32) c.2) s) := by
  intro chunks
  induction chunks with
  | nil =>
    intro rx s fuel hrx hav _ hfuel
    simp only [streamOf] at hrx
    have hn := readFrames_noise pf now [] s rx fuel (fun p hp => ⟨hav p hp, by
      intro hb
      exact htail (hrx ▸ hb ▸ List.mem_map_of_mem Prod.snd hp)⟩) (by omega)
    simp only [List.append_nil] at hn
    rw [hn]
    obtain ⟨f, hf⟩ : ∃ f, fuel - rx.length = f + 1 := ⟨fuel - rx.length - 1, by omega⟩
    simp [hf, readFrames]
  | cons c cs ih =>
    intro rx s fuel hrx hav hch hfuel
    obtain ⟨noise, payload⟩ := c
    obtain ⟨hnoise, hplen⟩ := hch (noise, payload) (List.mem_cons_self _ _)
    simp only at hnoise hplen
    simp only [streamOf] at hrx
    obtain ⟨rn, r1, rfl, hrn, hr1⟩ := List.map_eq_append_iff.mp hrx
    obtain ⟨q, r2, rfl, hq, hr2⟩ := List.map_eq_cons_iff.mp hr1
    obtain ⟨rp, rr, rfl, hrp, hrr⟩ := List.map_eq_append_iff.mp hr2
    obtain ⟨t, b⟩ := q
    simp only at hq
    subst hq
    simp only [List.length_append, List.length_cons] at hfuel
    have hrplen : rp.length = PAYLOAD_LEN := by rw [← hplen, ← hrp, List.length_map]
    have hn := readFrames_noise pf now ((t, START_BYTE) :: (rp ++ rr)) s rn fuel
      (fun p hp => ⟨hav p (List.mem_append_left _ hp), by
        intro hb
        exact hnoise (hrn ▸ hb ▸ List.mem_map_of_mem Prod.snd hp)⟩) (by omega)
    rw [hn]
    obtain ⟨f, hf⟩ : ∃ f, fuel - rn.length = f + 1 := ⟨fuel - rn.length - 1, by omega⟩
    rw [hf, readFrames_frame pf now t rp rr s f
      (hav (t, START_BYTE) (List.mem_append_right _ (List.mem_cons_self _ _)))
      (fun p hp => hav p (List.mem_append_right _
        (List.mem_cons_of_mem _ (List.mem_append_left _ hp)))) hrplen]
    rw [ih rr _ f hrr
      (fun p hp => hav p (List.mem_append_right _
        (List.mem_cons_of_mem _ (List.mem_append_right _ hp))))
      (fun c hc => hch c (List.mem_cons_of_mem _ hc)) (by omega)]
    simp only [List.foldl_cons, hrp]

theorem foldl_logFrame (ms : Nat) :
    ∀ (chunks : List (List Nat × List Nat)) (log : List (List Nat)),
      chunks.foldl (fun st c => logFrame st ms c.2) log = log ++ chunks.map Prod.snd := by
  intro chunks
  induction chunks with
  | nil => intro log; simp
  | cons c cs ih =>
    intro log
    rw [List.foldl_cons, ih]
    simp [logFrame]

/-- C1, as stated, fails: when the bytes between frames are arbitrary they may contain the
start byte.  On the stream made of the single byte `0xAA` followed by one well-formed frame
with an all-zero payload, the loop hands over the payload `0xAA, 0, ..., 0` (19 zeros), which
is not the payload of the frame, and drops the last byte of the frame. -/
theorem C1_arbitrary_noise_counterexample :
    serialLoop logFrame ⟨0, stamp 0 (streamOf [([START_BYTE], List.replicate 20 0)] [])⟩ []
        = some (⟨0, []⟩, [START_BYTE :: List.replicate 19 0])
      ∧ [START_BYTE :: List.replicate 19 0] ≠ [List.replicate 20 0] := by
  decide

/-- C1, amended: for every byte stream made of well-formed 21-byte frames (the start byte
`0xAA` and 20 payload bytes) interleaved with bytes none of which equals `0xAA`, all readable
when the loop starts, the frame reading loop passes to the frame handler exactly the payloads
of the frames, in stream order, and nothing else. -/
theorem C1_frames_between_clean_noise (now : Nat) (chunks : List (List Nat × List Nat))
    (tail : List Nat) (rx : List (Nat × Nat))
    (hrx : rx.map Prod.snd = streamOf chunks tail) (hav : ∀ p ∈ rx, p.1 ≤ now)
    (hch : ∀ c ∈ chunks, START_BYTE ∉ c.1 ∧ c.2.length = PAYLOAD_LEN)
    (htail : START_BYTE ∉ tail) :
    serialLoop logFrame ⟨now, rx⟩ [] = some (⟨now, []⟩, chunks.map Prod.snd) := by
  unfold serialLoop
  rw [readFrames_stream logFrame now tail htail chunks rx [] _ hrx hav hch (Nat.le_refl _),
    foldl_logFrame]
  simp

theorem C1_frames_between_clean_noise_witness :
    serialLoop logFrame
        ⟨7, stamp 3 (streamOf [([1, 2], List.replicate 20 9), ([], List.replicate 20 4)] [5])⟩ []
      = some (⟨7, []⟩, [List.replicate 20 9, List.replicate 20 4]) :=
  C1_frames_between_clean_noise 7 [([1, 2], List.replicate 20 9), ([], List.replicate 20 4)] [5]
    (stamp 3 (streamOf [([1, 2], List.replicate 20 9), ([], List.replicate 20 4)] [5]))
    (by decide) (by decide) (by decide) (by decide)

/-- C2: for every byte stream that is a concatenation of well-formed frames separated by runs
of bytes none of which equals `0xAA`, with arbitrary payload bytes (which may equal `0xAA`)
and every byte readable when the loop starts, the frame reading loop calls `processFrame`
on exactly the payloads of the frames, in order, and consumes the whole stream: a `0xAA`
inside a payload does not start a frame and the bytes between frames are dropped. -/
theorem C2_payloads_reach_processFrame (now : Nat) (s : Stats)
    (chunks : List (List Nat × List Nat)) (tail : List Nat) (rx : List (Nat × Nat))
    (hrx : rx.map Prod.snd = streamOf chunks tail) (hav : ∀ p ∈ rx, p.1 ≤ now)
    (hch : ∀ c ∈ chunks, START_BYTE ∉ c.1 ∧ c.2.length = PAYLOAD_LEN)
    (htail : START_BYTE ∉ tail) :
    serialLoop processFrame ⟨now, rx⟩ s
      = some (⟨now, []⟩,
          (chunks.map Prod.snd).foldl (fun st payload => processFrame st (now % U32) payload) s) := by
  unfold serialLoop
  rw [readFrames_stream processFrame now tail htail chunks rx s _ hrx hav hch (Nat.le_refl _),
    List.foldl_map]

theorem C2_payloads_reach_processFrame_witness :
    serialLoop processFrame
        ⟨7, stamp 3 (streamOf [([1, 2], List.replicate 20 START_BYTE)] [5])⟩ Stats.init
      = some (⟨7, []⟩,
          ([([1, 2], List.replicate 20 START_BYTE)].map Prod.snd).foldl
            (fun st payload => processFrame st (7 % U32) payload) Stats.init) :=
  C2_payloads_reach_processFrame 7 Stats.init [([1, 2], List.replicate 20 START_BYTE)] [5]
    (stamp 3 (streamOf [([1, 2], List.replicate 20 START_BYTE)] [5]))
    (by decide) (by decide) (by decide) (by decide)

/-! ## Field-by-field description of `acceptFrame` -/

theorem acceptFrame_recvCount (s : Stats) (ms : Nat) (cpu ram temp ts_ms : ℚ) (seq : Nat) :
    (acceptFrame s ms cpu ram temp ts_ms seq).recvCount = (s.recvCount + 1) % U32 := by
  unfold acceptFrame
  dsimp only
  split_ifs <;> rfl

theorem acceptFrame_windowRecv (s : Stats) (ms : Nat) (cpu ram temp ts_ms : ℚ) (seq : Nat) :
    (acceptFrame s ms cpu ram temp ts_ms seq).windowRecv = (s.windowRecv + 1) % U32 := by
  unfold acceptFrame
  dsimp only
  split_ifs <;> rfl

theorem acceptFrame_lastSeq (s : Stats) (ms : Nat) (cpu ram temp ts_ms : ℚ) (seq : Nat) :
    (acceptFrame s ms cpu ram temp ts_ms seq).lastSeq = seq := by
  unfold acceptFrame
  dsimp only
  split_ifs <;> rfl

theorem acceptFrame_lostCount (s : Stats) (ms : Nat) (cpu ram temp ts_ms : ℚ) (seq : Nat) :
    (acceptFrame s ms cpu ram temp ts_ms seq).lostCount
      = if s.lastSeq ≠ NO_SEQ ∧ seq > (s.lastSeq + 1) % U32 then
          (s.lostCount + subU32 seq ((s.lastSeq + 1) % U32)) % U32
        else s.lostCount := by
  unfold acceptFrame
  dsimp only
  split_ifs <;> first | rfl | (exfalso; omega)

theorem acceptFrame_windowLost (s : Stats) (ms : Nat) (cpu ram temp ts_ms : ℚ) (seq : Nat) :
    (acceptFrame s ms cpu ram temp ts_ms seq).windowLost
      = if s.lastSeq ≠ NO_SEQ ∧ seq > (s.lastSeq + 1) % U32 then
          (s.windowLost + subU32 seq ((s.lastSeq + 1) % U32)) % U32
        else s.windowLost := by
  unfold acceptFrame
  dsimp only
  split_ifs <;> first | rfl | (exfalso; omega)

theorem acceptFrame_latencyEMA (s : Stats) (ms : Nat) (cpu ram temp ts_ms : ℚ) (seq : Nat) :
    (acceptFrame s ms cpu ram temp ts_ms seq).latencyEMA
      = if s.latencyEMA = 0 then
          (if (ms : ℚ) - ts_ms < 0 then |(ms : ℚ) - ts_ms| else (ms : ℚ) - ts_ms)
        else EMA_ALPHA * (if (ms : ℚ) - ts_ms < 0 then |(ms : ℚ) - ts_ms| else (ms : ℚ) - ts_ms)
          + (1 - EMA_ALPHA) * s.latencyEMA := by
  unfold acceptFrame
  dsimp only
  split_ifs <;> rfl

theorem acceptFrame_graphIdx (s : Stats) (ms : Nat) (cpu ram temp ts_ms : ℚ) (seq : Nat) :
    (acceptFrame s ms cpu ram temp ts_ms seq).graphIdx = (s.graphIdx + 1) % GRAPH_LEN := by
  unfold acceptFrame
  dsimp only
  split_ifs <;> rfl

theorem acceptFrame_graphCPU (s : Stats) (ms : Nat) (cpu ram temp ts_ms : ℚ) (seq : Nat) :
    (acceptFrame s ms cpu ram temp ts_ms seq).graphCPU
      = s.graphCPU.set s.graphIdx (acceptFrame s ms cpu ram temp ts_ms seq).cpuEMA := by
  unfold acceptFrame
  dsimp only
  split_ifs <;> rfl

theorem acceptFrame_graphRAM (s : Stats) (ms : Nat) (cpu ram temp ts_ms : ℚ) (seq : Nat) :
    (acceptFrame s ms cpu ram temp ts_ms seq).graphRAM
      = s.graphRAM.set s.graphIdx (acceptFrame s ms cpu ram temp ts_ms seq).ramEMA := by
  unfold acceptFrame
  dsimp only
  split_ifs <;> rfl

/-- C3: a readable start byte is followed by fewer than 20 payload bytes, each arriving
less than 50 ms after the start byte was read, and by nothing else before the deadline; a
complete well-formed frame arrives after the deadline.  Then the frame reading loop ends at
the deadline without calling `processFrame`: every statistic is unchanged and the later frame
is still in the receive buffer.  Once that frame is readable, the loop calls `processFrame`
exactly once, on its payload, which counts one more received frame. -/
theorem C3_stalled_payload_dropped (w : World) (s : Stats) (t0 : Nat)
    (part frame : List (Nat × Nat)) (payload : List Nat)
    (hrx : w.rx = (t0, START_BYTE) :: (part ++ frame)) (ht0 : t0 ≤ w.now)
    (hk : part.length < PAYLOAD_LEN) (hpart : ∀ p ∈ part, p.1 < w.now + 50)
    (hframe : frame.map Prod.snd = START_BYTE :: payload) (hlen : payload.length = PAYLOAD_LEN)
    (hlate : ∀ p ∈ frame, w.now + 50 < p.1) :
    serialLoop processFrame w s = some (⟨w.now + 50, frame⟩, s)
      ∧ ∀ T, (∀ p ∈ frame, p.1 ≤ T) →
          serialLoop processFrame ⟨T, frame⟩ s
              = some (⟨T, []⟩, processFrame s (T % U32) payload)
            ∧ (processFrame s (T % U32) payload).recvCount = (s.recvCount + 1) % U32 := by
  obtain ⟨now, rx⟩ := w
  simp only at hrx ht0 hpart hlate
  subst hrx
  obtain ⟨q, fr, rfl, hq, hfr⟩ := List.map_eq_cons_iff.mp hframe
  obtain ⟨t1, b1⟩ := q
  simp only at hq
  subst hq
  have ht1 : now + 50 < t1 := hlate (t1, START_BYTE) (List.mem_cons_self _ _)
  constructor
  · have hc := collect_stall now ((t1, START_BYTE) :: fr)
      (by intro p hp; simp only [List.head?_cons, Option.mem_def, Option.some.injEq] at hp
          subst hp; exact Nat.le_of_lt ht1)
      (part.length + 50) part [] 0 COLLECT_FUEL (by omega) (by omega) (Or.inl (by omega)) hpart
      (by simpa using hk) (by unfold COLLECT_FUEL; omega)
    simp only [Nat.add_zero, List.nil_append] at hc
    have hne : ¬ part.length = PAYLOAD_LEN := by omega
    have hnr : ¬ t1 ≤ now + 50 := by omega
    simp only [serialLoop, readFrames, ht0, if_true, millis, hc, List.length_map, hne,
      if_false, List.length_append, List.length_cons, hnr]
  · intro T hT
    constructor
    · have hs := readFrames_stream processFrame T [] (by simp) [([], payload)]
        ((t1, START_BYTE) :: fr) s (((t1, START_BYTE) :: fr).length + 1)
        (by simp [streamOf, hfr]) hT (by simp [hlen]) (Nat.le_refl _)
      simpa [serialLoop] using hs
    · have hnl : ¬ payload.length < PAYLOAD_LEN := by omega
      simp only [processFrame, hnl, if_false, acceptFrame_recvCount]

theorem C3_stalled_payload_dropped_witness :
    serialLoop processFrame
        ⟨10, (4, START_BYTE) :: (stamp 12 [1, 2, 3] ++ stamp 100 (START_BYTE :: List.replicate 20 7))⟩
        Stats.init
      = some (⟨10 + 50, stamp 100 (START_BYTE :: List.replicate 20 7)⟩, Stats.init)
      ∧ ∀ T, (∀ p ∈ stamp 100 (START_BYTE :: List.replicate 20 7), p.1 ≤ T) →
          serialLoop processFrame ⟨T, stamp 100 (START_BYTE :: List.replicate 20 7)⟩ Stats.init
              = some (⟨T, []⟩, processFrame Stats.init (T % U32) (List.replicate 20 7))
            ∧ (processFrame Stats.init (T % U32) (List.replicate 20 7)).recvCount
                = (Stats.init.recvCount + 1) % U32 :=
  C3_stalled_payload_dropped
    ⟨10, (4, START_BYTE) :: (stamp 12 [1, 2, 3] ++ stamp 100 (START_BYTE :: List.replicate 20 7))⟩
    Stats.init 4 (stamp 12 [1, 2, 3]) (stamp 100 (START_BYTE :: List.replicate 20 7))
    (List.replicate 20 7) rfl (by decide) (by decide) (by decide) (by decide) (by decide)
    (by decide)

/-! ## Sequence tracking -/

theorem runFrames_cons (s : Stats) (p : Nat × Frame) (fs : List (Nat × Frame)) :
    runFrames s (p :: fs) = runFrames (accept s p.1 p.2) fs := rfl

theorem runFrames_append (s : Stats) (fs gs : List (Nat × Frame)) :
    runFrames s (fs ++ gs) = runFrames (runFrames s fs) gs := by
  simp [runFrames, List.foldl_append]

/-- Frames with strictly increasing sequence numbers above the recorded one: every frame is
counted and every skipped number is counted as lost, modulo 2^32. -/
theorem runFrames_increasing :
    ∀ (fs : List (Nat × Frame)) (s : Stats),
      List.Chain (· < ·) s.lastSeq (fs.map (fun p => p.2.sequence)) →
      (∀ p ∈ fs, p.2.sequence < U32) → s.lostCount < U32 → s.windowLost < U32 →
      s.recvCount < U32 → s.windowRecv < U32 →
      let last := (fs.map (fun p => p.2.sequence)).getLastD s.lastSeq
      (runFrames s fs).lastSeq = last ∧ s.lastSeq + fs.length ≤ last
        ∧ (runFrames s fs).recvCount = (s.recvCount + fs.length) % U32
        ∧ (runFrames s fs).windowRecv = (s.windowRecv + fs.length) % U32
        ∧ (runFrames s fs).lostCount = (s.lostCount + (last - s.lastSeq - fs.length)) % U32
        ∧ (runFrames s fs).windowLost
            = (s.windowLost + (last - s.lastSeq - fs.length)) % U32 := by
  intro fs
  induction fs with
  | nil =>
    intro s _ _ hl hw hr hv
    simp only [List.map_nil, List.getLastD_nil, List.length_nil, Nat.add_zero, Nat.sub_self,
      Nat.zero_sub, runFrames, List.foldl_nil, Nat.le_refl, true_and]
    unfold U32 at *
    refine ⟨?_, ?_, ?_, ?_⟩ <;> omega
  | cons p fs ih =>
    intro s hch hlt hl hw hr hv
    simp only [List.map_cons, List.chain_cons] at hch
    obtain ⟨hlp, hch⟩ := hch
    have hp : p.2.sequence < U32 := hlt p (List.mem_cons_self _ _)
    have hseq : (accept s p.1 p.2).lastSeq = p.2.sequence := acceptFrame_lastSeq _ _ _ _ _ _ _
    have hrc : (accept s p.1 p.2).recvCount = (s.recvCount + 1) % U32 :=
      acceptFrame_recvCount _ _ _ _ _ _ _
    have hwr : (accept s p.1 p.2).windowRecv = (s.windowRecv + 1) % U32 :=
      acceptFrame_windowRecv _ _ _ _ _ _ _
    have hlc : (accept s p.1 p.2).lostCount
        = (s.lostCount + (p.2.sequence - s.lastSeq - 1)) % U32 := by
      unfold accept
      rw [acceptFrame_lostCount]
      unfold subU32 NO_SEQ U32 at *
      split_ifs <;> omega
    have hwl : (accept s p.1 p.2).windowLost
        = (s.windowLost + (p.2.sequence - s.lastSeq - 1)) % U32 := by
      unfold accept
      rw [acceptFrame_windowLost]
      unfold subU32 NO_SEQ U32 at *
      split_ifs <;> omega
    have hih := ih (accept s p.1 p.2) (by rw [hseq]; exact hch)
      (fun q hq => hlt q (List.mem_cons_of_mem _ hq))
      (by rw [hlc]; exact Nat.mod_lt _ (by unfold U32; omega))
      (by rw [hwl]; exact Nat.mod_lt _ (by unfold U32; omega))
      (by rw [hrc]; exact Nat.mod_lt _ (by unfold U32; omega))
      (by rw [hwr]; exact Nat.mod_lt _ (by unfold U32; omega))
    simp only [hseq, hrc, hwr, hlc, hwl] at hih
    obtain ⟨h1, h2, h3, h4, h5, h6⟩ := hih
    simp only [List.map_cons, List.getLastD_cons, List.length_cons, runFrames_cons]
    generalize (List.map (fun p => p.2.sequence) fs).getLastD p.2.sequence = last at *
    unfold U32 at *
    refine ⟨h1, ?_, ?_, ?_, ?_, ?_⟩ <;> omega

theorem accept_init_counters (ms : Nat) (f : Frame) :
    (accept Stats.init ms f).lastSeq = f.sequence ∧ (accept Stats.init ms f).recvCount = 1
      ∧ (accept Stats.init ms f).windowRecv = 1 ∧ (accept Stats.init ms f).lostCount = 0
      ∧ (accept Stats.init ms f).windowLost = 0 := by
  unfold accept
  rw [acceptFrame_lastSeq, acceptFrame_recvCount, acceptFrame_windowRecv, acceptFrame_lostCount,
    acceptFrame_windowLost]
  simp [Stats.init, U32]

/-- From the initial state, frames with strictly increasing 32-bit sequence numbers leave
`recvCount = windowRecv = n mod 2^32` and `lostCount = windowLost = (sn - s1 + 1) - n`. -/
theorem runFrames_init_increasing (fs : List (Nat × Frame)) (hne : fs ≠ [])
    (hinc : List.Chain' (· < ·) (fs.map (fun p => p.2.sequence)))
    (hu : ∀ p ∈ fs, p.2.sequence < U32) :
    (runFrames Stats.init fs).recvCount = fs.length % U32
      ∧ (runFrames Stats.init fs).windowRecv = fs.length % U32
      ∧ (runFrames Stats.init fs).lostCount
          = (fs.map (fun p => p.2.sequence)).getLastD 0
              - (fs.map (fun p => p.2.sequence)).headD 0 + 1 - fs.length
      ∧ (runFrames Stats.init fs).windowLost
          = (fs.map (fun p => p.2.sequence)).getLastD 0
              - (fs.map (fun p => p.2.sequence)).headD 0 + 1 - fs.length := by
  cases fs with
  | nil => exact absurd rfl hne
  | cons p fs =>
    obtain ⟨h1, h2, h3, h4, h5⟩ := accept_init_counters p.1 p.2
    have hch : List.Chain (· < ·) (accept Stats.init p.1 p.2).lastSeq
        (fs.map (fun p => p.2.sequence)) := by
      rw [h1]; exact hinc
    have hmain := runFrames_increasing fs (accept Stats.init p.1 p.2) hch
      (fun q hq => hu q (List.mem_cons_of_mem _ hq)) (by rw [h4]; unfold U32; omega)
      (by rw [h5]; unfold U32; omega) (by rw [h2]; unfold U32; omega)
      (by rw [h3]; unfold U32; omega)
    simp only [h1, h2, h3, h4, h5] at hmain
    obtain ⟨_, g2, g3, g4, g5, g6⟩ := hmain
    have hlast : (fs.map (fun p => p.2.sequence)).getLastD p.2.sequence < U32 := by
      have hm := List.getLastD_mem_cons (fs.map (fun p => p.2.sequence)) p.2.sequence
      rw [← List.map_cons (fun p => p.2.sequence) p fs] at hm
      obtain ⟨q, hq, hqe⟩ := List.mem_map.mp hm
      rw [← hqe]
      exact hu q hq
    simp only [runFrames_cons, List.map_cons, List.getLastD_cons, List.headD_cons,
      List.length_cons]
    generalize (List.map (fun p => p.2.sequence) fs).getLastD p.2.sequence = last at *
    unfold U32 at *
    refine ⟨?_, ?_, ?_, ?_⟩ <;> omega

/-- The frames with sequence numbers `0, 1, ..., n - 1`, fed from the initial state. -/
theorem runFrames_init_range (n : Nat) (hn : 1 ≤ n) (hle : n ≤ U32) :
    1 ≤ ((List.range n).map seqFrame).length
      ∧ List.Pairwise (· < ·) (((List.range n).map seqFrame).map (fun p => p.2.sequence))
      ∧ (∀ p ∈ (List.range n).map seqFrame, p.2.sequence < U32)
      ∧ (runFrames Stats.init ((List.range n).map seqFrame)).recvCount = n % U32
      ∧ ((List.range n).map seqFrame).length = n := by
  have hseq : ((List.range n).map seqFrame).map (fun p => p.2.sequence) = List.range n := by
    rw [List.map_map]
    exact List.map_id _
  have hlen : ((List.range n).map seqFrame).length = n := by
    rw [List.length_map, List.length_range]
  have hne : (List.range n).map seqFrame ≠ [] := by
    intro h
    rw [h, List.length_nil] at hlen
    omega
  have hinc : List.Pairwise (· < ·)
      (((List.range n).map seqFrame).map (fun p => p.2.sequence)) := by
    rw [hseq]
    exact List.pairwise_lt_range n
  have hu : ∀ p ∈ (List.range n).map seqFrame, p.2.sequence < U32 := by
    intro p hp
    obtain ⟨i, hi, rfl⟩ := List.mem_map.mp hp
    exact Nat.lt_of_lt_of_le (List.mem_range.mp hi) hle
  have hrun := (runFrames_init_increasing _ hne hinc.chain' hu).1
  rw [hlen] at hrun
  exact ⟨by omega, hinc, hu, hrun, hlen⟩

/-- C4, as stated, fails for `n = 2^32`: after the frames with sequence numbers
`0, 1, ..., 2^32 - 1`, which are strictly increasing, the 32-bit counter `recvCount` has
wrapped to 0 and is not equal to the number of frames. -/
theorem C4_counter_wrap_counterexample :
    1 ≤ ((List.range U32).map seqFrame).length
      ∧ List.Pairwise (· < ·) (((List.range U32).map seqFrame).map (fun p => p.2.sequence))
      ∧ (∀ p ∈ (List.range U32).map seqFrame, p.2.sequence < U32)
      ∧ (runFrames Stats.init ((List.range U32).map seqFrame)).recvCount = 0
      ∧ (runFrames Stats.init ((List.range U32).map seqFrame)).recvCount
          ≠ ((List.range U32).map seqFrame).length := by
  have hpos : 1 ≤ U32 := by decide
  obtain ⟨h1, h2, h3, h4, h5⟩ := runFrames_init_range U32 hpos (Nat.le_refl _)
  rw [Nat.mod_self] at h4
  refine ⟨h1, h2, h3, h4, ?_⟩
  rw [h4]
  exact Nat.ne_of_lt h1

/-- C4, amended: starting from the initial state and with no per-second tick in between,
feeding `processFrame` n frames, `1 <= n < 2^32`, whose 32-bit sequence numbers
`s1 < s2 < ... < sn` are strictly increasing gives `recvCount = windowRecv = n` and
`lostCount = windowLost = (sn - s1 + 1) - n`; for `[5,6,7,10,11]` this is received 5,
lost 2. -/
theorem C4_increasing_sequences (fs : List (Nat × Frame)) (hne : fs ≠ [])
    (hinc : List.Pairwise (· < ·) (fs.map (fun p => p.2.sequence)))
    (hu : ∀ p ∈ fs, p.2.sequence < U32) (hn : fs.length < U32) :
    ((runFrames Stats.init fs).recvCount = fs.length
      ∧ (runFrames Stats.init fs).windowRecv = fs.length
      ∧ (runFrames Stats.init fs).lostCount
          = (fs.map (fun p => p.2.sequence)).getLastD 0
              - (fs.map (fun p => p.2.sequence)).headD 0 + 1 - fs.length
      ∧ (runFrames Stats.init fs).windowLost
          = (fs.map (fun p => p.2.sequence)).getLastD 0
              - (fs.map (fun p => p.2.sequence)).headD 0 + 1 - fs.length)
    ∧ ((runFrames Stats.init ([5, 6, 7, 10, 11].map seqFrame)).recvCount = 5
      ∧ (runFrames Stats.init ([5, 6, 7, 10, 11].map seqFrame)).windowRecv = 5
      ∧ (runFrames Stats.init ([5, 6, 7, 10, 11].map seqFrame)).lostCount = 2
      ∧ (runFrames Stats.init ([5, 6, 7, 10, 11].map seqFrame)).windowLost = 2) := by
  obtain ⟨h1, h2, h3, h4⟩ := runFrames_init_increasing fs hne hinc.chain' hu
  rw [Nat.mod_eq_of_lt hn] at h1 h2
  refine ⟨⟨h1, h2, h3, h4⟩, ?_⟩
  obtain ⟨e1, e2, e3, e4⟩ := runFrames_init_increasing ([5, 6, 7, 10, 11].map seqFrame)
    (by decide) (List.Pairwise.chain' (by decide)) (by decide)
  exact ⟨e1, e2, e3, e4⟩

theorem C4_increasing_sequences_witness :
    ((runFrames Stats.init ([3, 4, 9].map seqFrame)).recvCount = ([3, 4, 9].map seqFrame).length
      ∧ (runFrames Stats.init ([3, 4, 9].map seqFrame)).windowRecv
          = ([3, 4, 9].map seqFrame).length
      ∧ (runFrames Stats.init ([3, 4, 9].map seqFrame)).lostCount
          = (([3, 4, 9].map seqFrame).map (fun p => p.2.sequence)).getLastD 0
              - (([3, 4, 9].map seqFrame).map (fun p => p.2.sequence)).headD 0 + 1
              - ([3, 4, 9].map seqFrame).length
      ∧ (runFrames Stats.init ([3, 4, 9].map seqFrame)).windowLost
          = (([3, 4, 9].map seqFrame).map (fun p => p.2.sequence)).getLastD 0
              - (([3, 4, 9].map seqFrame).map (fun p => p.2.sequence)).headD 0 + 1
              - ([3, 4, 9].map seqFrame).length)
    ∧ ((runFrames Stats.init ([5, 6, 7, 10, 11].map seqFrame)).recvCount = 5
      ∧ (runFrames Stats.init ([5, 6, 7, 10, 11].map seqFrame)).windowRecv = 5
      ∧ (runFrames Stats.init ([5, 6, 7, 10, 11].map seqFrame)).lostCount = 2
      ∧ (runFrames Stats.init ([5, 6, 7, 10, 11].map seqFrame)).windowLost = 2) :=
  C4_increasing_sequences ([3, 4, 9].map seqFrame) (by decide) (by decide) (by decide)
    (by decide)

/-- C5, as stated, fails: a frame with sequence number `0xFFFFFFFF` is accepted and recorded
as the last sequence, but that value is also the mark for "no sequence recorded".  For the
next frame, with sequence 5, the expected value `lastSeq + 1` is 0 in 32-bit arithmetic and
5 exceeds it, yet nothing is added to `lostCount` or `windowLost`, where the claim adds 5. -/
theorem C5_last_sequence_max_counterexample :
    (runFrames Stats.init [seqFrame NO_SEQ]).lastSeq = (seqFrame NO_SEQ).2.sequence
      ∧ (runFrames Stats.init [seqFrame NO_SEQ]).recvCount = 1
      ∧ (seqFrame 5).2.sequence > ((runFrames Stats.init [seqFrame NO_SEQ]).lastSeq + 1) % U32
      ∧ (runFrames Stats.init [seqFrame NO_SEQ, seqFrame 5]).lostCount
          = (runFrames Stats.init [seqFrame NO_SEQ]).lostCount
      ∧ (runFrames Stats.init [seqFrame NO_SEQ, seqFrame 5]).lostCount
          ≠ ((runFrames Stats.init [seqFrame NO_SEQ]).lostCount
              + ((seqFrame 5).2.sequence
                  - ((runFrames Stats.init [seqFrame NO_SEQ]).lastSeq + 1) % U32)) % U32
      ∧ (runFrames Stats.init [seqFrame NO_SEQ, seqFrame 5]).windowLost
          ≠ ((runFrames Stats.init [seqFrame NO_SEQ]).windowLost
              + ((seqFrame 5).2.sequence
                  - ((runFrames Stats.init [seqFrame NO_SEQ]).lastSeq + 1) % U32)) % U32 := by
  decide

/-- C5, amended: in every state reached by accepting a frame whose 32-bit sequence number is
not `0xFFFFFFFF` (so `lastSeq` is that number), every frame with
`frame.sequence > lastSeq + 1` makes `processFrame` add exactly
`frame.sequence - (lastSeq + 1)` to both `lostCount` and `windowLost`, as 32-bit additions. -/
theorem C5_gap_added_to_loss (s0 : Stats) (ms0 ms : Nat) (f0 f : Frame)
    (h0 : f0.sequence < NO_SEQ) (hf : f.sequence < U32)
    (hgap : f.sequence > f0.sequence + 1) :
    (accept s0 ms0 f0).lastSeq = f0.sequence
      ∧ (accept (accept s0 ms0 f0) ms f).lostCount
          = ((accept s0 ms0 f0).lostCount + (f.sequence - (f0.sequence + 1))) % U32
      ∧ (accept (accept s0 ms0 f0) ms f).windowLost
          = ((accept s0 ms0 f0).windowLost + (f.sequence - (f0.sequence + 1))) % U32 := by
  have hl : (accept s0 ms0 f0).lastSeq = f0.sequence := acceptFrame_lastSeq _ _ _ _ _ _ _
  refine ⟨hl, ?_, ?_⟩
  · show (acceptFrame (accept s0 ms0 f0) ms f.cpu f.ram f.temp f.timestamp_ms f.sequence).lostCount
      = _
    rw [acceptFrame_lostCount, hl]
    unfold subU32 NO_SEQ U32 at *
    split_ifs <;> omega
  · show (acceptFrame (accept s0 ms0 f0) ms f.cpu f.ram f.temp f.timestamp_ms
      f.sequence).windowLost = _
    rw [acceptFrame_windowLost, hl]
    unfold subU32 NO_SEQ U32 at *
    split_ifs <;> omega

theorem C5_gap_added_to_loss_witness :
    (accept Stats.init 0 (seqFrame 7).2).lastSeq = (seqFrame 7).2.sequence
      ∧ (accept (accept Stats.init 0 (seqFrame 7).2) 0 (seqFrame 10).2).lostCount
          = ((accept Stats.init 0 (seqFrame 7).2).lostCount
              + ((seqFrame 10).2.sequence - ((seqFrame 7).2.sequence + 1))) % U32
      ∧ (accept (accept Stats.init 0 (seqFrame 7).2) 0 (seqFrame 10).2).windowLost
          = ((accept Stats.init 0 (seqFrame 7).2).windowLost
              + ((seqFrame 10).2.sequence - ((seqFrame 7).2.sequence + 1))) % U32 :=
  C5_gap_added_to_loss Stats.init 0 0 (seqFrame 7).2 (seqFrame 10).2 (by decide) (by decide)
    (by decide)

/-- After the frames with sequence numbers `0 .. n`, fed from the initial state, both receive
counters hold `(n + 1) mod 2^32` and `lastSeq` is `n`. -/
theorem runFrames_init_range_succ (n : Nat) (hn : n + 1 ≤ U32) :
    (runFrames Stats.init ((List.range (n + 1)).map seqFrame)).recvCount = (n + 1) % U32
      ∧ (runFrames Stats.init ((List.range (n + 1)).map seqFrame)).windowRecv = (n + 1) % U32
      ∧ (runFrames Stats.init ((List.range (n + 1)).map seqFrame)).lastSeq = n := by
  have hseq : ((List.range (n + 1)).map seqFrame).map (fun p => p.2.sequence)
      = List.range (n + 1) := by
    rw [List.map_map]
    exact List.map_id _
  have hlen : ((List.range (n + 1)).map seqFrame).length = n + 1 := by
    rw [List.length_map, List.length_range]
  have hne : (List.range (n + 1)).map seqFrame ≠ [] := by
    intro h
    rw [h, List.length_nil] at hlen
    omega
  have hinc : List.Pairwise (· < ·)
      (((List.range (n + 1)).map seqFrame).map (fun p => p.2.sequence)) := by
    rw [hseq]
    exact List.pairwise_lt_range (n + 1)
  have hu : ∀ p ∈ (List.range (n + 1)).map seqFrame, p.2.sequence < U32 := by
    intro p hp
    obtain ⟨i, hi, rfl⟩ := List.mem_map.mp hp
    exact Nat.lt_of_lt_of_le (List.mem_range.mp hi) hn
  obtain ⟨h1, h2, _, _⟩ := runFrames_init_increasing _ hne hinc.chain' hu
  rw [hlen] at h1 h2
  refine ⟨h1, h2, ?_⟩
  rw [List.range_succ, List.map_append, runFrames_append]
  exact acceptFrame_lastSeq _ _ _ _ _ _ _

/-- C6, as stated, fails where a receive counter is at its maximum: after the `2^32 - 1`
frames with sequence numbers `0 .. 0xFFFFFFFE` both `recvCount` and `windowRecv` are
`0xFFFFFFFF`; a further frame with sequence 0 (a regression) is accepted and the counters
become 0, not the old value plus 1. -/
theorem C6_receive_counter_wrap_counterexample :
    (runFrames Stats.init ((List.range (4294967294 + 1)).map seqFrame)).recvCount = 4294967295
      ∧ (runFrames Stats.init ((List.range (4294967294 + 1)).map seqFrame)).windowRecv
          = 4294967295
      ∧ (runFrames Stats.init ((List.range (4294967294 + 1)).map seqFrame)).lastSeq < U32
      ∧ (seqFrame 0).2.sequence
          ≤ (runFrames Stats.init ((List.range (4294967294 + 1)).map seqFrame)).lastSeq + 1
      ∧ (accept (runFrames Stats.init ((List.range (4294967294 + 1)).map seqFrame)) 0
          (seqFrame 0).2).recvCount = 0
      ∧ (accept (runFrames Stats.init ((List.range (4294967294 + 1)).map seqFrame)) 0
          (seqFrame 0).2).recvCount
          ≠ (runFrames Stats.init ((List.range (4294967294 + 1)).map seqFrame)).recvCount + 1
      ∧ (accept (runFrames Stats.init ((List.range (4294967294 + 1)).map seqFrame)) 0
          (seqFrame 0).2).windowRecv
          ≠ (runFrames Stats.init ((List.range (4294967294 + 1)).map seqFrame)).windowRecv
              + 1 := by
  obtain ⟨h1, h2, h3⟩ := runFrames_init_range_succ 4294967294 (by decide)
  have hm : (4294967294 + 1) % U32 = 4294967295 := by decide
  rw [hm] at h1 h2
  have hr : (accept (runFrames Stats.init ((List.range (4294967294 + 1)).map seqFrame)) 0
      (seqFrame 0).2).recvCount = 0 := by
    unfold accept
    rw [acceptFrame_recvCount, h1]
    decide
  have hw : (accept (runFrames Stats.init ((List.range (4294967294 + 1)).map seqFrame)) 0
      (seqFrame 0).2).windowRecv = 0 := by
    unfold accept
    rw [acceptFrame_windowRecv, h2]
    decide
  refine ⟨h1, h2, ?_, Nat.zero_le _, hr, ?_, ?_⟩
  · rw [h3]; decide
  · rw [hr, h1]; decide
  · rw [hw, h2]; decide

/-- C6, amended: in every state (with a 32-bit `lastSeq`) and for every accepted frame whose
sequence is equal to or behind the expected value `lastSeq + 1` (exact match, duplicate or
regression), whether that value is taken as the 32-bit `expected` of the code or as the
unbounded sum, `processFrame` leaves `lostCount` and `windowLost` unchanged, increments
`recvCount` and `windowRecv` by one modulo `2^32` (by exactly 1 unless the counter is
`0xFFFFFFFF`, where it wraps to 0) and sets `lastSeq` to the sequence of the frame; in
`[5,6,6,4,7]` the transitions 6->6 and 6->4 add no loss and each frame is counted. -/
theorem C6_no_loss_unless_ahead (s : Stats) (ms : Nat) (f : Frame) (hs : s.lastSeq < U32)
    (hseq : f.sequence ≤ (s.lastSeq + 1) % U32 ∨ f.sequence ≤ s.lastSeq + 1) :
    ((accept s ms f).lostCount = s.lostCount ∧ (accept s ms f).windowLost = s.windowLost
      ∧ (accept s ms f).recvCount = (s.recvCount + 1) % U32
      ∧ (accept s ms f).windowRecv = (s.windowRecv + 1) % U32
      ∧ (accept s ms f).lastSeq = f.sequence)
    ∧ ((s.recvCount < NO_SEQ → (accept s ms f).recvCount = s.recvCount + 1)
      ∧ (s.windowRecv < NO_SEQ → (accept s ms f).windowRecv = s.windowRecv + 1)
      ∧ (s.recvCount = NO_SEQ → (accept s ms f).recvCount = 0)
      ∧ (s.windowRecv = NO_SEQ → (accept s ms f).windowRecv = 0))
    ∧ ((runFrames Stats.init ([5, 6].map seqFrame)).lostCount = 0
      ∧ (runFrames Stats.init ([5, 6, 6].map seqFrame)).lostCount = 0
      ∧ (runFrames Stats.init ([5, 6, 6, 4].map seqFrame)).lostCount = 0
      ∧ (runFrames Stats.init ([5, 6, 6, 4].map seqFrame)).windowLost = 0
      ∧ (runFrames Stats.init ([5, 6, 6, 4].map seqFrame)).recvCount = 4
      ∧ (runFrames Stats.init ([5, 6, 6, 4, 7].map seqFrame)).recvCount = 5
      ∧ (runFrames Stats.init ([5, 6, 6, 4, 7].map seqFrame)).windowRecv = 5) := by
  have hr : (accept s ms f).recvCount = (s.recvCount + 1) % U32 :=
    acceptFrame_recvCount _ _ _ _ _ _ _
  have hw : (accept s ms f).windowRecv = (s.windowRecv + 1) % U32 :=
    acceptFrame_windowRecv _ _ _ _ _ _ _
  refine ⟨⟨?_, ?_, hr, hw, acceptFrame_lastSeq _ _ _ _ _ _ _⟩, ⟨?_, ?_, ?_, ?_⟩, by decide⟩
  · show (acceptFrame s ms f.cpu f.ram f.temp f.timestamp_ms f.sequence).lostCount = _
    rw [acceptFrame_lostCount]
    unfold NO_SEQ U32 at *
    split_ifs <;> omega
  · show (acceptFrame s ms f.cpu f.ram f.temp f.timestamp_ms f.sequence).windowLost = _
    rw [acceptFrame_windowLost]
    unfold NO_SEQ U32 at *
    split_ifs <;> omega
  · intro h; rw [hr]; unfold NO_SEQ U32 at *; omega
  · intro h; rw [hw]; unfold NO_SEQ U32 at *; omega
  · intro h; rw [hr, h]; decide
  · intro h; rw [hw, h]; decide

theorem C6_no_loss_unless_ahead_witness :
    (accept (runFrames Stats.init ([5, 6].map seqFrame)) 0 (seqFrame 4).2).lostCount
        = (runFrames Stats.init ([5, 6].map seqFrame)).lostCount
      ∧ (accept (runFrames Stats.init ([5, 6].map seqFrame)) 0 (seqFrame 4).2).windowLost
        = (runFrames Stats.init ([5, 6].map seqFrame)).windowLost
      ∧ (accept (runFrames Stats.init ([5, 6].map seqFrame)) 0 (seqFrame 4).2).recvCount
        = ((runFrames Stats.init ([5, 6].map seqFrame)).recvCount + 1) % U32
      ∧ (accept (runFrames Stats.init ([5, 6].map seqFrame)) 0 (seqFrame 4).2).windowRecv
        = ((runFrames Stats.init ([5, 6].map seqFrame)).windowRecv + 1) % U32
      ∧ (accept (runFrames Stats.init ([5, 6].map seqFrame)) 0 (seqFrame 4).2).lastSeq
        = (seqFrame 4).2.sequence :=
  (C6_no_loss_unless_ahead (runFrames Stats.init ([5, 6].map seqFrame)) 0 (seqFrame 4).2
    (by decide) (Or.inl (by decide))).1

/-! ## The graph ring buffer -/

theorem drop_eq_map_range (l : List ℚ) (d m : Nat) (h : d + m = l.length) :
    l.drop d = (List.range m).map (fun x => l.getD (d + x) 0) := by
  apply List.ext_getElem?
  intro x
  by_cases hx : x < m
  · have h1 : d + x < l.length := by omega
    simp [List.getElem?_drop, List.getElem?_range, hx, h1, List.getElem?_eq_getElem]
  · have h1 : l.length ≤ d + x := by omega
    have h2 : m ≤ x := by omega
    simp [List.getElem?_drop, List.getElem?_eq_none, h1, h2]

theorem getD_set_same (l : List ℚ) (i : Nat) (v : ℚ) (h : i < l.length) :
    (l.set i v).getD i 0 = v := by
  simp [List.getElem?_set, h]

theorem getD_set_other (l : List ℚ) (i j : Nat) (v : ℚ) (h : i ≠ j) :
    (l.set i v).getD j 0 = l.getD j 0 := by
  simp [List.getElem?_set, h]

theorem getD_append_old (l r : List ℚ) (i : Nat) (h : i < l.length) :
    (l ++ r).getD i 0 = l.getD i 0 := by
  simp [List.getElem?_append_left, h]

theorem getD_append_new (l r : List ℚ) (i : Nat) (h : l.length ≤ i) :
    (l ++ r).getD i 0 = r.getD (i - l.length) 0 := by
  simp [List.getElem?_append_right, h]

theorem statesAfter_length : ∀ (fs : List (Nat × Frame)) (s : Stats),
    (statesAfter s fs).length = fs.length := by
  intro fs
  induction fs with
  | nil => intro s; rfl
  | cons p fs ih => intro s; simp [statesAfter, ih]

/-- The ring buffer invariant for a series `g` that `processFrame` writes at `graphIdx` with
the value `e` of the new state: after `k` writes, the entry at `i % GRAPH_LEN` is the value
of write number `i`, for each of the last `GRAPH_LEN` writes. -/
theorem ring_invariant (g : Stats → List ℚ) (e : Stats → ℚ)
    (hg : ∀ s ms f, g (accept s ms f) = (g s).set s.graphIdx (e (accept s ms f))) :
    ∀ (fs : List (Nat × Frame)) (s : Stats) (k : Nat) (vals : List ℚ),
      vals.length = k → s.graphIdx = k % GRAPH_LEN → (g s).length = GRAPH_LEN →
      (∀ i, i < k → k ≤ i + GRAPH_LEN → (g s).getD (i % GRAPH_LEN) 0 = vals.getD i 0) →
      (runFrames s fs).graphIdx = (k + fs.length) % GRAPH_LEN
        ∧ (g (runFrames s fs)).length = GRAPH_LEN
        ∧ (∀ i, i < k + fs.length → k + fs.length ≤ i + GRAPH_LEN →
            (g (runFrames s fs)).getD (i % GRAPH_LEN) 0
              = (vals ++ (statesAfter s fs).map e).getD i 0) := by
  intro fs
  induction fs with
  | nil =>
    intro s k vals hv hidx hlen hinv
    simp only [runFrames, statesAfter, List.foldl_nil, List.map_nil, List.append_nil,
      List.length_nil, Nat.add_zero]
    exact ⟨hidx, hlen, hinv⟩
  | cons p fs ih =>
    intro s k vals hv hidx hlen hinv
    have hidx1 : (accept s p.1 p.2).graphIdx = (k + 1) % GRAPH_LEN := by
      have := acceptFrame_graphIdx s p.1 p.2.cpu p.2.ram p.2.temp p.2.timestamp_ms p.2.sequence
      unfold accept
      rw [this, hidx]
      unfold GRAPH_LEN SCREEN_WIDTH
      omega
    have hlen1 : (g (accept s p.1 p.2)).length = GRAPH_LEN := by
      rw [hg, List.length_set, hlen]
    have hinv1 : ∀ i, i < k + 1 → k + 1 ≤ i + GRAPH_LEN →
        (g (accept s p.1 p.2)).getD (i % GRAPH_LEN) 0
          = (vals ++ [e (accept s p.1 p.2)]).getD i 0 := by
      intro i hi hk
      rw [hg, hidx]
      by_cases hik : i = k
      · subst hik
        rw [getD_set_same _ _ _ (by rw [hlen]; exact Nat.mod_lt _ (by decide)),
          getD_append_new _ _ _ (by omega), hv, Nat.sub_self]
        rfl
      · have hne : k % GRAPH_LEN ≠ i % GRAPH_LEN := by
          unfold GRAPH_LEN SCREEN_WIDTH at *
          omega
        rw [getD_set_other _ _ _ _ hne, getD_append_old _ _ _ (by omega)]
        exact hinv i (by omega) (by omega)
    obtain ⟨h1, h2, h3⟩ := ih (accept s p.1 p.2) (k + 1) (vals ++ [e (accept s p.1 p.2)])
      (by simp [hv]) hidx1 hlen1 hinv1
    have harr : k + 1 + fs.length = k + (p :: fs).length := by
      simp only [List.length_cons]; omega
    rw [harr] at h1 h3
    refine ⟨h1, h2, ?_⟩
    intro i hi hk
    have := h3 i hi hk
    simpa [statesAfter, runFrames_cons] using this

/-- Reading a series of the ring buffer in display order after at least `GRAPH_LEN` writes
from the initial state gives the last `GRAPH_LEN` values written, oldest first. -/
theorem ring_read (g : Stats → List ℚ) (e : Stats → ℚ)
    (hg : ∀ s ms f, g (accept s ms f) = (g s).set s.graphIdx (e (accept s ms f)))
    (hinit : (g Stats.init).length = GRAPH_LEN)
    (fs : List (Nat × Frame)) (hn : GRAPH_LEN ≤ fs.length) :
    (List.range GRAPH_LEN).map
        (fun x => (g (runFrames Stats.init fs)).getD (graphReadIdx (runFrames Stats.init fs) x) 0)
      = ((statesAfter Stats.init fs).map e).drop (fs.length - GRAPH_LEN) := by
  obtain ⟨h1, _, h3⟩ := ring_invariant g e hg fs Stats.init 0 [] rfl rfl hinit
    (fun i hi _ => absurd hi (Nat.not_lt_zero i))
  simp only [Nat.zero_add, List.nil_append] at h1 h3
  rw [drop_eq_map_range ((statesAfter Stats.init fs).map e) (fs.length - GRAPH_LEN) GRAPH_LEN
    (by rw [List.length_map, statesAfter_length]; omega)]
  apply List.map_congr_left
  intro x hx
  have hx' : x < GRAPH_LEN := List.mem_range.mp hx
  have hidx : graphReadIdx (runFrames Stats.init fs) x
      = (fs.length - GRAPH_LEN + x) % GRAPH_LEN := by
    unfold graphReadIdx
    rw [h1]
    unfold GRAPH_LEN SCREEN_WIDTH at *
    omega
  rw [hidx]
  exact h3 _ (by omega) (by omega)

/-- C8: for every number `n >= GRAPH_LEN` of frames accepted from the initial state, reading
each graph series at the indices `(graphIdx + x) mod GRAPH_LEN` for `x = 0 .. GRAPH_LEN-1`,
as `drawGraphView` does, yields exactly the last `GRAPH_LEN` values written by `processFrame`
(the smoothed cpu, resp. ram, values after frames `n-GRAPH_LEN+1 .. n`), oldest first; for
`n = GRAPH_LEN + 3` these are the values written from the fourth frame on. -/
theorem C8_graph_read_order (fs : List (Nat × Frame)) (hn : GRAPH_LEN ≤ fs.length) :
    readCPU (runFrames Stats.init fs)
        = ((statesAfter Stats.init fs).map (fun st => st.cpuEMA)).drop (fs.length - GRAPH_LEN)
      ∧ readRAM (runFrames Stats.init fs)
        = ((statesAfter Stats.init fs).map (fun st => st.ramEMA)).drop (fs.length - GRAPH_LEN)
      ∧ (fs.length = GRAPH_LEN + 3 →
          readCPU (runFrames Stats.init fs)
              = ((statesAfter Stats.init fs).map (fun st => st.cpuEMA)).drop 3
            ∧ readRAM (runFrames Stats.init fs)
              = ((statesAfter Stats.init fs).map (fun st => st.ramEMA)).drop 3) := by
  have hc := ring_read (fun st => st.graphCPU) (fun st => st.cpuEMA)
    (fun s ms f => acceptFrame_graphCPU s ms f.cpu f.ram f.temp f.timestamp_ms f.sequence)
    (by simp [Stats.init]) fs hn
  have hr := ring_read (fun st => st.graphRAM) (fun st => st.ramEMA)
    (fun s ms f => acceptFrame_graphRAM s ms f.cpu f.ram f.temp f.timestamp_ms f.sequence)
    (by simp [Stats.init]) fs hn
  refine ⟨hc, hr, ?_⟩
  intro h3
  have hd : fs.length - GRAPH_LEN = 3 := by omega
  rw [hd] at hc hr
  exact ⟨hc, hr⟩

theorem C8_graph_read_order_witness :
    readCPU (runFrames Stats.init ((List.range 131).map rampFrame))
        = ((statesAfter Stats.init ((List.range 131).map rampFrame)).map
            (fun st => st.cpuEMA)).drop 3
      ∧ readRAM (runFrames Stats.init ((List.range 131).map rampFrame))
        = ((statesAfter Stats.init ((List.range 131).map rampFrame)).map
            (fun st => st.ramEMA)).drop 3 :=
  (C8_graph_read_order ((List.range 131).map rampFrame)
    (by simp [GRAPH_LEN, SCREEN_WIDTH])).2.2 (by simp [GRAPH_LEN, SCREEN_WIDTH])

/-! ## Display mapping -/

theorem cround_63 : cround 63 = 63 := by
  unfold cround
  rw [if_pos (by norm_num)]
  exact Int.floor_eq_iff.mpr ⟨by norm_num, by norm_num⟩

theorem cround_0 : cround 0 = 0 := by
  unfold cround
  rw [if_pos (by norm_num)]
  exact Int.floor_eq_iff.mpr ⟨by norm_num, by norm_num⟩

theorem cround_half_63 : cround (63 / 2) = 32 := by
  unfold cround
  rw [if_pos (by norm_num)]
  exact Int.floor_eq_iff.mpr ⟨by norm_num, by norm_num⟩

theorem mapToY_zero : mapToY 0 = 63 := by
  have h : (1 - constrain 0 0 100 / 100) * ((SCREEN_HEIGHT : ℚ) - 1) = 63 := by
    norm_num [constrain, SCREEN_HEIGHT]
  simp only [mapToY, h, cround_63]
  decide

theorem mapToY_hundred : mapToY 100 = 0 := by
  have h : (1 - constrain 100 0 100 / 100) * ((SCREEN_HEIGHT : ℚ) - 1) = 0 := by
    norm_num [constrain, SCREEN_HEIGHT]
  simp only [mapToY, h, cround_0]
  decide

theorem mapToY_fifty : mapToY 50 = 32 := by
  have h : (1 - constrain 50 0 100 / 100) * ((SCREEN_HEIGHT : ℚ) - 1) = 63 / 2 := by
    norm_num [constrain, SCREEN_HEIGHT]
  simp only [mapToY, h, cround_half_63]
  decide

theorem mapToY_constrain (v : ℚ) : mapToY v = mapToY (constrain v 0 100) := by
  have h : constrain (constrain v 0 100) 0 100 = constrain v 0 100 := by
    unfold constrain
    split_ifs <;> first | rfl | (exfalso; linarith)
  simp only [mapToY, h]

/-- C9: `mapToY` (canvas height 64) maps 0 to 63 and 100 to 0, maps every input below 0 to
the same result as 0 and every input above 100 to the same result as 100 (for example -10
and 110), and maps 50 to a value within 1 of 32 (to 32). -/
theorem C9_mapToY_values (lo hi : ℚ) (hlo : lo < 0) (hhi : 100 < hi) :
    mapToY 0 = (SCREEN_HEIGHT : Int) - 1 ∧ mapToY 0 = 63 ∧ mapToY 100 = 0
      ∧ mapToY lo = mapToY 0 ∧ mapToY hi = mapToY 100
      ∧ mapToY (-10) = mapToY 0 ∧ mapToY 110 = mapToY 100
      ∧ |mapToY 50 - 32| ≤ 1 := by
  have below : ∀ v : ℚ, v < 0 → mapToY v = mapToY 0 := by
    intro v hv
    rw [mapToY_constrain v]
    have : constrain v 0 100 = 0 := by unfold constrain; rw [if_pos hv]
    rw [this]
  have above : ∀ v : ℚ, 100 < v → mapToY v = mapToY 100 := by
    intro v hv
    rw [mapToY_constrain v]
    have : constrain v 0 100 = 100 := by
      unfold constrain
      rw [if_neg (by linarith), if_pos hv]
    rw [this]
  refine ⟨by rw [mapToY_zero]; decide, mapToY_zero, mapToY_hundred, below lo hlo, above hi hhi,
    below (-10) (by norm_num), above 110 (by norm_num), ?_⟩
  rw [mapToY_fifty]
  decide

theorem C9_mapToY_values_witness :
    mapToY 0 = (SCREEN_HEIGHT : Int) - 1 ∧ mapToY 0 = 63 ∧ mapToY 100 = 0
      ∧ mapToY (-3 / 2) = mapToY 0 ∧ mapToY 250 = mapToY 100
      ∧ mapToY (-10) = mapToY 0 ∧ mapToY 110 = mapToY 100
      ∧ |mapToY 50 - 32| ≤ 1 :=
  C9_mapToY_values (-3 / 2) 250 (by norm_num) (by norm_num)

/-! ## The once-per-second tick -/

theorem fpsStep_stats (s : Stats) (v : LoopVars) (ms1 ms2 : Nat)
    (hsec : subU32 ms1 v.lastFpsTime ≥ 1000) : (fpsStep s v ms1 ms2).1 = tick s := by
  unfold fpsStep
  dsimp only
  rw [if_pos hsec]

theorem tick_windowRecv (s : Stats) :
    (tick s).windowRecv
      = if (s.windowRecv + s.windowLost) % U32 > LOSS_WINDOW then 0 else s.windowRecv := by
  unfold tick
  split_ifs <;> rfl

theorem tick_windowLost (s : Stats) :
    (tick s).windowLost
      = if (s.windowRecv + s.windowLost) % U32 > LOSS_WINDOW then 0 else s.windowLost := by
  unfold tick
  split_ifs <;> rfl

/-- The tick leaves everything but the two window counters as it is. -/
theorem tick_others (s : Stats) :
    (tick s).recvCount = s.recvCount ∧ (tick s).lostCount = s.lostCount
      ∧ (tick s).lastSeq = s.lastSeq ∧ (tick s).cpuEMA = s.cpuEMA ∧ (tick s).ramEMA = s.ramEMA
      ∧ (tick s).tempEMA = s.tempEMA ∧ (tick s).latencyEMA = s.latencyEMA
      ∧ (tick s).graphCPU = s.graphCPU ∧ (tick s).graphRAM = s.graphRAM
      ∧ (tick s).graphIdx = s.graphIdx := by
  unfold tick
  split_ifs <;> exact ⟨rfl, rfl, rfl, rfl, rfl, rfl, rfl, rfl, rfl, rfl⟩

set_option maxRecDepth 20000 in
/-- The frames with sequence numbers `1 .. 300`, fed from the initial state: 300 received,
none lost. -/
theorem runFrames_one_to_300 :
    (runFrames Stats.init ((List.range' 1 300).map seqFrame)).windowRecv = 300
      ∧ (runFrames Stats.init ((List.range' 1 300).map seqFrame)).windowLost = 0 := by
  have hseq : ((List.range' 1 300).map seqFrame).map (fun p => p.2.sequence)
      = List.range' 1 300 := by
    rw [List.map_map]
    exact List.map_id _
  have hinc : List.Pairwise (· < ·)
      (((List.range' 1 300).map seqFrame).map (fun p => p.2.sequence)) := by
    rw [hseq]
    exact List.pairwise_lt_range' 1 300
  have hu : ∀ p ∈ (List.range' 1 300).map seqFrame, p.2.sequence < U32 := by
    intro p hp
    obtain ⟨i, hi, rfl⟩ := List.mem_map.mp hp
    have := (List.mem_range'_1.mp hi).2
    show i < U32
    unfold U32
    omega
  obtain ⟨_, h2, _, h4⟩ := runFrames_init_increasing ((List.range' 1 300).map seqFrame)
    (by simp) hinc.chain' hu
  rw [hseq] at h4
  have hlast : (List.range' 1 300).getLastD 0 = 300 := by decide
  have hhead : (List.range' 1 300).headD 0 = 1 := by decide
  rw [hlast, hhead] at h4
  rw [h2, h4]
  simp [U32]

/-- C11, as stated, fails when the 32-bit sum `windowRecv + windowLost` wraps: after the
three frames with sequence numbers `0, 0xFFFFFFFE, 0xFFFFFFFE` the window counters are 3 and
`0xFFFFFFFD`; their sum exceeds 200, but the sum computed by the tick is 0 and the tick
leaves both counters as they are. -/
theorem C11_wrapped_window_counterexample :
    (runFrames Stats.init ([0, 4294967294, 4294967294].map seqFrame)).windowRecv
        + (runFrames Stats.init ([0, 4294967294, 4294967294].map seqFrame)).windowLost
          > LOSS_WINDOW
      ∧ (fpsStep (runFrames Stats.init ([0, 4294967294, 4294967294].map seqFrame))
          (LoopVars.init 0 0) 1000 1000).1.windowRecv = 3
      ∧ (fpsStep (runFrames Stats.init ([0, 4294967294, 4294967294].map seqFrame))
          (LoopVars.init 0 0) 1000 1000).1.windowLost = 4294967293 := by
  decide

/-- C11, amended: at a once-per-second tick, if the 32-bit sum
`(windowRecv + windowLost) mod 2^32` exceeds 200 then both window counters become 0,
otherwise both are unchanged; for counters whose sum is below `2^32` this is the sum itself,
and a sum of exactly 200 does not reset.  The tick never changes `recvCount`, `lostCount`,
`lastSeq`, the EMAs or the graph buffer.  In particular after frames with sequence `1..300`
have been accepted from the initial state, the next tick sets `windowRecv` and `windowLost`
to 0. -/
theorem C11_tick_resets_window (s t : Stats) (v : LoopVars) (ms1 ms2 : Nat)
    (hsec : subU32 ms1 v.lastFpsTime ≥ 1000)
    (ht : t.windowRecv + t.windowLost < U32) :
    ((fpsStep s v ms1 ms2).1.windowRecv
          = (if (s.windowRecv + s.windowLost) % U32 > 200 then 0 else s.windowRecv)
      ∧ (fpsStep s v ms1 ms2).1.windowLost
          = (if (s.windowRecv + s.windowLost) % U32 > 200 then 0 else s.windowLost))
    ∧ ((fpsStep t v ms1 ms2).1.windowRecv
          = (if t.windowRecv + t.windowLost > 200 then 0 else t.windowRecv)
      ∧ (fpsStep t v ms1 ms2).1.windowLost
          = (if t.windowRecv + t.windowLost > 200 then 0 else t.windowLost))
    ∧ ((fpsStep s v ms1 ms2).1.recvCount = s.recvCount
      ∧ (fpsStep s v ms1 ms2).1.lostCount = s.lostCount
      ∧ (fpsStep s v ms1 ms2).1.lastSeq = s.lastSeq
      ∧ (fpsStep s v ms1 ms2).1.cpuEMA = s.cpuEMA
      ∧ (fpsStep s v ms1 ms2).1.ramEMA = s.ramEMA
      ∧ (fpsStep s v ms1 ms2).1.tempEMA = s.tempEMA
      ∧ (fpsStep s v ms1 ms2).1.latencyEMA = s.latencyEMA
      ∧ (fpsStep s v ms1 ms2).1.graphCPU = s.graphCPU
      ∧ (fpsStep s v ms1 ms2).1.graphRAM = s.graphRAM
      ∧ (fpsStep s v ms1 ms2).1.graphIdx = s.graphIdx)
    ∧ ((fpsStep (runFrames Stats.init ((List.range' 1 300).map seqFrame)) v ms1 ms2).1.windowRecv
          = 0
      ∧ (fpsStep (runFrames Stats.init ((List.range' 1 300).map seqFrame)) v ms1 ms2).1.windowLost
          = 0) := by
  simp only [fpsStep_stats _ v ms1 ms2 hsec]
  refine ⟨⟨tick_windowRecv s, tick_windowLost s⟩, ⟨?_, ?_⟩, tick_others s, ?_, ?_⟩
  · rw [tick_windowRecv, Nat.mod_eq_of_lt ht]; rfl
  · rw [tick_windowLost, Nat.mod_eq_of_lt ht]; rfl
  · rw [tick_windowRecv, runFrames_one_to_300.1, runFrames_one_to_300.2]
    decide
  · rw [tick_windowLost, runFrames_one_to_300.1, runFrames_one_to_300.2]
    decide

theorem C11_tick_resets_window_witness :
    ((fpsStep (runFrames Stats.init ([5, 6, 7, 10, 11].map seqFrame)) (LoopVars.init 0 0)
          1000 1001).1.windowRecv
          = (if ((runFrames Stats.init ([5, 6, 7, 10, 11].map seqFrame)).windowRecv
                + (runFrames Stats.init ([5, 6, 7, 10, 11].map seqFrame)).windowLost) % U32
                  > 200 then 0
             else (runFrames Stats.init ([5, 6, 7, 10, 11].map seqFrame)).windowRecv)
      ∧ (fpsStep (runFrames Stats.init ([5, 6, 7, 10, 11].map seqFrame)) (LoopVars.init 0 0)
          1000 1001).1.windowLost
          = (if ((runFrames Stats.init ([5, 6, 7, 10, 11].map seqFrame)).windowRecv
                + (runFrames Stats.init ([5, 6, 7, 10, 11].map seqFrame)).windowLost) % U32
                  > 200 then 0
             else (runFrames Stats.init ([5, 6, 7, 10, 11].map seqFrame)).windowLost))
    ∧ ((fpsStep Stats.init (LoopVars.init 0 0) 1000 1001).1.windowRecv
          = (if Stats.init.windowRecv + Stats.init.windowLost > 200 then 0
             else Stats.init.windowRecv)
      ∧ (fpsStep Stats.init (LoopVars.init 0 0) 1000 1001).1.windowLost
          = (if Stats.init.windowRecv + Stats.init.windowLost > 200 then 0
             else Stats.init.windowLost)) :=
  let h := C11_tick_resets_window (runFrames Stats.init ([5, 6, 7, 10, 11].map seqFrame))
    Stats.init (LoopVars.init 0 0) 1000 1001 (by decide) (by decide)
  ⟨h.1, h.2.1⟩

/-! ## The view mode button -/

/-- The button block flips `graphMode` exactly when the input is active and the 32-bit clock
difference to `lastButtonMillis` exceeds 300. -/
theorem buttonStep_flips_iff (v : LoopVars) (low : Bool) (now : Nat) :
    (buttonStep v low now).graphMode ≠ v.graphMode
      ↔ (low = true ∧ subU32 now v.lastButtonMillis > 300) := by
  unfold buttonStep
  cases low <;> by_cases h : subU32 now v.lastButtonMillis > 300 <;> simp [h]

theorem buttonStep_flip (v : LoopVars) (low : Bool) (now : Nat)
    (h : (buttonStep v low now).graphMode ≠ v.graphMode) :
    (buttonStep v low now).lastButtonMillis = now := by
  obtain ⟨hl, hd⟩ := (buttonStep_flips_iff v low now).mp h
  unfold buttonStep
  rw [if_pos hl, if_pos hd]

theorem buttonStep_no_flip (v : LoopVars) (low : Bool) (now : Nat)
    (h : ¬ (buttonStep v low now).graphMode ≠ v.graphMode) : buttonStep v low now = v := by
  have h2 : ¬ (low = true ∧ subU32 now v.lastButtonMillis > 300) :=
    fun hc => h ((buttonStep_flips_iff v low now).mpr hc)
  unfold buttonStep
  by_cases hl : low = true
  · rw [if_pos hl, if_neg (fun hd => h2 ⟨hl, hd⟩)]
  · rw [if_neg hl]

/-- With non-decreasing clock readings that have not wrapped, every change of `graphMode`
comes more than 300 ms after the time stored in `lastButtonMillis`, and after the previous
change. -/
theorem toggleTimes_chain_from :
    ∀ (polls : List (Nat × Bool)) (v : LoopVars),
      (∀ p ∈ polls, v.lastButtonMillis ≤ p.1 ∧ p.1 < U32) →
      List.Pairwise (· ≤ ·) (polls.map Prod.fst) →
      List.Chain (fun a b => a + 300 < b) v.lastButtonMillis (toggleTimes v polls) := by
  intro polls
  induction polls with
  | nil => intro v _ _; exact List.Chain.nil
  | cons p ps ih =>
    intro v hb hs
    obtain ⟨hle, hlt⟩ := hb p (List.mem_cons_self _ _)
    simp only [List.map_cons, List.pairwise_cons] at hs
    obtain ⟨hps, hs⟩ := hs
    unfold toggleTimes
    by_cases hflip : (buttonStep v p.2 p.1).graphMode ≠ v.graphMode
    · rw [if_pos hflip]
      have hd := ((buttonStep_flips_iff v p.2 p.1).mp hflip).2
      have hgt : v.lastButtonMillis + 300 < p.1 := by
        unfold subU32 U32 at *
        omega
      refine List.Chain.cons hgt ?_
      have hih := ih (buttonStep v p.2 p.1) (by
        intro q hq
        rw [buttonStep_flip v p.2 p.1 hflip]
        exact ⟨hps q.1 (List.mem_map_of_mem Prod.fst hq), (hb q (List.mem_cons_of_mem _ hq)).2⟩) hs
      rw [buttonStep_flip v p.2 p.1 hflip] at hih
      exact hih
    · rw [if_neg hflip, buttonStep_no_flip v p.2 p.1 hflip]
      exact ih v (fun q hq => hb q (List.mem_cons_of_mem _ hq)) hs

/-- With non-decreasing clock readings that have not wrapped, successive changes of
`graphMode` are more than 300 ms apart, whatever the state the polls start from. -/
theorem toggleTimes_chain :
    ∀ (polls : List (Nat × Bool)) (v : LoopVars),
      (∀ p ∈ polls, p.1 < U32) → List.Pairwise (· ≤ ·) (polls.map Prod.fst) →
      List.Chain' (fun a b => a + 300 < b) (toggleTimes v polls) := by
  intro polls
  induction polls with
  | nil => intro v _ _; exact List.chain'_nil
  | cons p ps ih =>
    intro v hb hs
    simp only [List.map_cons, List.pairwise_cons] at hs
    obtain ⟨hps, hs⟩ := hs
    unfold toggleTimes
    by_cases hflip : (buttonStep v p.2 p.1).graphMode ≠ v.graphMode
    · rw [if_pos hflip]
      have hc := toggleTimes_chain_from ps (buttonStep v p.2 p.1) (by
        intro q hq
        rw [buttonStep_flip v p.2 p.1 hflip]
        exact ⟨hps q.1 (List.mem_map_of_mem Prod.fst hq), hb q (List.mem_cons_of_mem _ hq)⟩) hs
      rw [buttonStep_flip v p.2 p.1 hflip] at hc
      exact hc
    · rw [if_neg hflip, buttonStep_no_flip v p.2 p.1 hflip]
      exact ih v (fun q hq => hb q (List.mem_cons_of_mem _ hq)) hs

theorem toggleTimes_subset :
    ∀ (polls : List (Nat × Bool)) (v : LoopVars) (t : Nat),
      t ∈ toggleTimes v polls → t ∈ polls.map Prod.fst := by
  intro polls
  induction polls with
  | nil => intro v t h; simp [toggleTimes] at h
  | cons p ps ih =>
    intro v t h
    unfold toggleTimes at h
    split_ifs at h with hflip
    · rcases List.mem_cons.mp h with h1 | h1
      · rw [h1]; exact List.mem_cons_self _ _
      · exact List.mem_cons_of_mem _ (ih _ t h1)
    · exact List.mem_cons_of_mem _ (ih _ t h)

/-- Over polls whose clock readings are non-decreasing, have not wrapped and span at most
300 ms, `graphMode` changes at most once. -/
theorem toggleTimes_short_span (polls : List (Nat × Bool)) (v : LoopVars)
    (hb : ∀ p ∈ polls, p.1 < U32) (hs : List.Pairwise (· ≤ ·) (polls.map Prod.fst))
    (hspan : ∀ p ∈ polls, ∀ q ∈ polls, q.1 ≤ p.1 + 300) :
    (toggleTimes v polls).length ≤ 1 := by
  have hc := toggleTimes_chain polls v hb hs
  have hsub := toggleTimes_subset polls v
  rcases hl : toggleTimes v polls with _ | ⟨a, _ | ⟨b, rest⟩⟩
  · simp
  · simp
  · exfalso
    rw [hl] at hc hsub
    have hab : a + 300 < b := (List.chain'_cons.mp hc).1
    obtain ⟨pa, hpa, rfl⟩ := List.mem_map.mp (hsub a (List.mem_cons_self _ _))
    obtain ⟨pb, hpb, rfl⟩ := List.mem_map.mp
      (hsub b (List.mem_cons_of_mem _ (List.mem_cons_self _ _)))
    have := hspan pa hpa pb hpb
    omega

/-- C12, as stated, fails: the button block has no memory of the previous input.  With the
input held active on the polls at 301, 400, 500 and 602 ms, `graphMode` flips at 301 ms and
again at 602 ms, a poll whose preceding poll was active: two toggles during one press. -/
theorem C12_held_button_counterexample :
    toggleTimes (LoopVars.init 0 0) [(301, true), (400, true), (500, true), (602, true)]
        = [301, 602]
      ∧ (runPolls (LoopVars.init 0 0) [(301, true), (400, true), (500, true)]).graphMode = false
      ∧ (runPolls (LoopVars.init 0 0)
          [(301, true), (400, true), (500, true), (602, true)]).graphMode = true := by
  decide

/-- C12, amended: the view mode toggle is level-triggered with a 300 ms lockout: on every
poll of `loop()`, `graphMode` flips exactly when the button input is active on that poll and
more than 300 ms (32-bit clock difference) have passed since `lastButtonMillis`, whatever the
input was on the preceding poll; so an input held active produces at most one toggle over
polls whose clock readings are non-decreasing, have not wrapped and span at most 300 ms. -/
theorem C12_toggle_level_triggered (v w : LoopVars) (low : Bool) (now : Nat)
    (polls : List (Nat × Bool)) (hb : ∀ p ∈ polls, p.1 < U32)
    (hs : List.Pairwise (· ≤ ·) (polls.map Prod.fst))
    (hspan : ∀ p ∈ polls, ∀ q ∈ polls, q.1 ≤ p.1 + 300) :
    ((buttonStep w low now).graphMode ≠ w.graphMode
        ↔ (low = true ∧ subU32 now w.lastButtonMillis > 300))
      ∧ (toggleTimes v polls).length ≤ 1 :=
  ⟨buttonStep_flips_iff w low now, toggleTimes_short_span polls v hb hs hspan⟩

theorem C12_toggle_level_triggered_witness :
    ((buttonStep (LoopVars.init 0 0) true 301).graphMode ≠ (LoopVars.init 0 0).graphMode
        ↔ (true = true ∧ subU32 301 (LoopVars.init 0 0).lastButtonMillis > 300))
      ∧ (toggleTimes (LoopVars.init 0 0) [(301, true), (400, true), (601, true)]).length ≤ 1 :=
  C12_toggle_level_triggered (LoopVars.init 0 0) (LoopVars.init 0 0) true 301
    [(301, true), (400, true), (601, true)] (by decide) (by decide) (by decide)

/-- C13: over every sequence of `loop()` polls with non-decreasing clock readings that have
not wrapped, any two successive changes of `graphMode` are at least 300 ms apart (more than
300 ms, in fact), and a poll with the input inactive changes neither `graphMode` nor
`lastButtonMillis`. -/
theorem C13_toggles_300ms_apart (v w : LoopVars) (now : Nat) (polls : List (Nat × Bool))
    (hb : ∀ p ∈ polls, p.1 < U32) (hs : List.Pairwise (· ≤ ·) (polls.map Prod.fst)) :
    List.Chain' (fun a b => a + 300 ≤ b) (toggleTimes v polls)
      ∧ List.Chain' (fun a b => a + 300 < b) (toggleTimes v polls)
      ∧ (buttonStep w false now).graphMode = w.graphMode
      ∧ (buttonStep w false now).lastButtonMillis = w.lastButtonMillis := by
  have hc := toggleTimes_chain polls v hb hs
  exact ⟨hc.imp (fun _ _ h => Nat.le_of_lt h), hc, rfl, rfl⟩

theorem C13_toggles_300ms_apart_witness :
    List.Chain' (fun a b => a + 300 ≤ b)
        (toggleTimes (LoopVars.init 0 0)
          [(301, true), (400, false), (602, true), (700, true), (1000, true)])
      ∧ List.Chain' (fun a b => a + 300 < b)
        (toggleTimes (LoopVars.init 0 0)
          [(301, true), (400, false), (602, true), (700, true), (1000, true)])
      ∧ (buttonStep (LoopVars.init 0 0) false 500).graphMode = (LoopVars.init 0 0).graphMode
      ∧ (buttonStep (LoopVars.init 0 0) false 500).lastButtonMillis
          = (LoopVars.init 0 0).lastButtonMillis :=
  C13_toggles_300ms_apart (LoopVars.init 0 0) (LoopVars.init 0 0) 500
    [(301, true), (400, false), (602, true), (700, true), (1000, true)] (by decide) (by decide)

/-! ## Rows of the display -/

theorem mapToY_eq_clampRow (v : ℚ) :
    mapToY v = clampRow (cround ((1 - constrain v 0 100 / 100) * ((SCREEN_HEIGHT : ℚ) - 1))) :=
  rfl

theorem clampRow_range (y : Int) : 0 ≤ clampRow y ∧ clampRow y ≤ (SCREEN_HEIGHT : Int) - 1 := by
  unfold clampRow SCREEN_HEIGHT
  dsimp only
  split_ifs <;> constructor <;> omega

/-- C15: for every input value `v`, `mapToY v` is an integer in the range
`0 .. SCREEN_HEIGHT-1` (`0 .. 63`), a valid row of the display; the two final tests of
`mapToY` bring every integer that the conversion of the rounded value can produce into that
range. -/
theorem C15_mapToY_in_range (v : ℚ) (y : Int) :
    (0 ≤ mapToY v ∧ mapToY v ≤ (SCREEN_HEIGHT : Int) - 1 ∧ mapToY v ≤ 63
        ∧ mapToY v < (SCREEN_HEIGHT : Int))
      ∧ (0 ≤ clampRow y ∧ clampRow y ≤ 63) := by
  have hv := clampRow_range (cround ((1 - constrain v 0 100 / 100) * ((SCREEN_HEIGHT : ℚ) - 1)))
  have hy := clampRow_range y
  rw [← mapToY_eq_clampRow] at hv
  have h64 : (SCREEN_HEIGHT : Int) = 64 := rfl
  rw [h64] at hv hy ⊢
  refine ⟨⟨hv.1, hv.2, ?_, ?_⟩, hy.1, ?_⟩ <;> omega

/-! ## Bounds of the smoothed values -/

theorem step_graph_shape (s : Stats) (e : Event)
    (h : s.graphIdx < GRAPH_LEN ∧ s.graphCPU.length = GRAPH_LEN
      ∧ s.graphRAM.length = GRAPH_LEN) :
    (step s e).graphIdx < GRAPH_LEN ∧ (step s e).graphCPU.length = GRAPH_LEN
      ∧ (step s e).graphRAM.length = GRAPH_LEN := by
  cases e with
  | frame ms f =>
    show (acceptFrame s ms f.cpu f.ram f.temp f.timestamp_ms f.sequence).graphIdx < GRAPH_LEN
      ∧ (acceptFrame s ms f.cpu f.ram f.temp f.timestamp_ms f.sequence).graphCPU.length
          = GRAPH_LEN
      ∧ (acceptFrame s ms f.cpu f.ram f.temp f.timestamp_ms f.sequence).graphRAM.length
          = GRAPH_LEN
    rw [acceptFrame_graphIdx, acceptFrame_graphCPU, acceptFrame_graphRAM, List.length_set,
      List.length_set]
    exact ⟨Nat.mod_lt _ (by decide), h.2.1, h.2.2⟩
  | tick =>
    obtain ⟨_, _, _, _, _, _, _, h8, h9, h10⟩ := tick_others s
    show (tick s).graphIdx < GRAPH_LEN ∧ (tick s).graphCPU.length = GRAPH_LEN
      ∧ (tick s).graphRAM.length = GRAPH_LEN
    rw [h8, h9, h10]
    exact h

theorem runEvents_graph_shape : ∀ (es : List Event) (s : Stats),
    (s.graphIdx < GRAPH_LEN ∧ s.graphCPU.length = GRAPH_LEN ∧ s.graphRAM.length = GRAPH_LEN) →
    (runEvents s es).graphIdx < GRAPH_LEN ∧ (runEvents s es).graphCPU.length = GRAPH_LEN
      ∧ (runEvents s es).graphRAM.length = GRAPH_LEN := by
  intro es
  induction es with
  | nil => intro s h; exact h
  | cons e es ih => intro s h; exact ih (step s e) (step_graph_shape s e h)

/-- C19: `graphIdx < GRAPH_LEN` holds in the initial state and is preserved by every
`processFrame` call, which advances `graphIdx` to `(graphIdx + 1) mod GRAPH_LEN`; hence in
every state reached from the initial state by accepted frames and ticks the writes
`graphCPU[graphIdx]`, `graphRAM[graphIdx]` and the reads of `drawGraphView` at
`(graphIdx + x) mod GRAPH_LEN` and `(graphIdx + x + 1) mod GRAPH_LEN` are within the bounds
of the arrays. -/
theorem C19_graph_index_in_bounds (es : List Event) (s : Stats) (ms : Nat) (f : Frame)
    (x : Nat) :
    Stats.init.graphIdx < GRAPH_LEN
      ∧ (accept s ms f).graphIdx = (s.graphIdx + 1) % GRAPH_LEN
      ∧ (accept s ms f).graphIdx < GRAPH_LEN
      ∧ (runEvents Stats.init es).graphIdx < GRAPH_LEN
      ∧ (runEvents Stats.init es).graphIdx < (runEvents Stats.init es).graphCPU.length
      ∧ (runEvents Stats.init es).graphIdx < (runEvents Stats.init es).graphRAM.length
      ∧ graphReadIdx (runEvents Stats.init es) x < (runEvents Stats.init es).graphCPU.length
      ∧ graphReadIdx (runEvents Stats.init es) x < (runEvents Stats.init es).graphRAM.length
      ∧ graphReadIdx (runEvents Stats.init es) (x + 1)
          < (runEvents Stats.init es).graphCPU.length
      ∧ graphReadIdx (runEvents Stats.init es) (x + 1)
          < (runEvents Stats.init es).graphRAM.length := by
  have hpos : 0 < GRAPH_LEN := by decide
  obtain ⟨h1, h2, h3⟩ := runEvents_graph_shape es Stats.init
    ⟨hpos, List.length_replicate _ _, List.length_replicate _ _⟩
  have hstep : (accept s ms f).graphIdx = (s.graphIdx + 1) % GRAPH_LEN :=
    acceptFrame_graphIdx s ms f.cpu f.ram f.temp f.timestamp_ms f.sequence
  refine ⟨hpos, hstep, ?_, h1, ?_, ?_, ?_, ?_, ?_, ?_⟩
  · rw [hstep]; exact Nat.mod_lt _ hpos
  · rw [h2]; exact h1
  · rw [h3]; exact h1
  · rw [h2]; exact Nat.mod_lt _ hpos
  · rw [h3]; exact Nat.mod_lt _ hpos
  · rw [h2]; exact Nat.mod_lt _ hpos
  · rw [h3]; exact Nat.mod_lt _ hpos

/-! ## Monotonicity of the display mapping -/

theorem roundEven_abs_le (m : ℚ) : |(roundEven m : ℚ) - m| ≤ 1 / 2 := by
  have h1 := Int.floor_le m
  have h2 := Int.lt_floor_add_one m
  unfold roundEven
  dsimp only
  rw [abs_le]
  split_ifs <;> push_cast <;> constructor <;> linarith

theorem roundEven_nonneg (m : ℚ) (h : 0 ≤ m) : 0 ≤ roundEven m := by
  have hf : 0 ≤ Int.floor m := Int.floor_nonneg.mpr h
  unfold roundEven
  dsimp only
  split_ifs <;> omega

/-- An integer less than one half away is the rounded value. -/
theorem roundEven_near (m : ℚ) (n : Int) (h : |m - n| < 1 / 2) : roundEven m = n := by
  have h1 := roundEven_abs_le m
  rw [abs_lt] at h
  rw [abs_le] at h1
  have h3 : ((roundEven m - n : Int) : ℚ) < 1 := by push_cast; linarith
  have h4 : (-1 : ℚ) < ((roundEven m - n : Int) : ℚ) := by push_cast; linarith
  have h5 : roundEven m - n < 1 := by exact_mod_cast h3
  have h6 : -1 < roundEven m - n := by exact_mod_cast h4
  omega

/-- A halfway case goes to the even neighbour. -/
theorem roundEven_tie (m : ℚ) (n : Int) (h : m = n + 1 / 2) :
    roundEven m = if n % 2 = 0 then n else n + 1 := by
  have hf : Int.floor m = n := by
    rw [Int.floor_eq_iff]
    constructor <;> linarith
  unfold roundEven
  dsimp only
  rw [hf]
  have h1 : ¬ (m - n < 1 / 2) := by linarith
  have h2 : ¬ (1 / 2 < m - n) := by linarith
  rw [if_neg h1, if_neg h2]

theorem roundMag_nonneg (q : ℚ) : 0 ≤ roundMag q := by
  unfold roundMag
  split_ifs with h
  · exact le_refl 0
  · dsimp only
    have hq : 0 < q := not_le.mp h
    apply mul_nonneg
    · exact_mod_cast roundEven_nonneg _ (div_nonneg hq.le (by positivity))
    · positivity

theorem roundMag_zero : roundMag 0 = 0 := by
  unfold roundMag
  rw [if_pos (le_refl 0)]

theorem log2_eq (q : ℚ) (e : Int) (hlo : (2 : ℚ) ^ e ≤ q) (hhi : q < 2 ^ (e + 1)) :
    Int.log 2 q = e := by
  have hq : 0 < q := lt_of_lt_of_le (by positivity) hlo
  have h1 : e ≤ Int.log 2 q :=
    (Int.zpow_le_iff_le_log (by norm_num) hq).mp (by exact_mod_cast hlo)
  have h2 : Int.log 2 q < e + 1 :=
    (Int.lt_zpow_iff_log_lt (by norm_num) hq).mp (by exact_mod_cast hhi)
  omega

/-- In the binade `2^e <= q < 2^(e+1)` of the normal range, the unit is `2^(e-23)`. -/
theorem roundMag_binade (q : ℚ) (e : Int) (hlo : (2 : ℚ) ^ e ≤ q) (hhi : q < 2 ^ (e + 1))
    (he : -126 ≤ e) :
    roundMag q = (roundEven (q / 2 ^ (e - 23)) : ℚ) * 2 ^ (e - 23) := by
  have hq : 0 < q := lt_of_lt_of_le (by positivity) hlo
  unfold roundMag
  rw [if_neg (not_le.mpr hq)]
  dsimp only
  rw [log2_eq q e hlo hhi, max_eq_left he]

/-- Rounding in the normal range has a relative error of at most `2^(-24)`. -/
theorem roundMag_rel (q : ℚ) (h : (2 : ℚ) ^ (-126 : Int) ≤ q) :
    |roundMag q - q| ≤ q / 16777216 := by
  have hq : 0 < q := lt_of_lt_of_le (by positivity) h
  have hlo : (2 : ℚ) ^ (Int.log 2 q) ≤ q := by
    have := Int.zpow_log_le_self (R := ℚ) (b := 2) (by norm_num) hq
    exact_mod_cast this
  have hhi : q < (2 : ℚ) ^ (Int.log 2 q + 1) := by
    have := Int.lt_zpow_succ_log_self (R := ℚ) (b := 2) (by norm_num) q
    exact_mod_cast this
  have he : -126 ≤ Int.log 2 q :=
    (Int.zpow_le_iff_le_log (by norm_num) hq).mp (by exact_mod_cast h)
  rw [roundMag_binade q _ hlo hhi he]
  set e := Int.log 2 q
  have hu : (0 : ℚ) < 2 ^ (e - 23) := by positivity
  have hr := roundEven_abs_le (q / 2 ^ (e - 23))
  have hsplit : (2 : ℚ) ^ e = 2 ^ (e - 23) * 8388608 := by
    rw [show e = (e - 23) + 23 by ring, zpow_add₀ (by norm_num : (2 : ℚ) ≠ 0)]
    norm_num
  have key : (roundEven (q / 2 ^ (e - 23)) : ℚ) * 2 ^ (e - 23) - q
      = ((roundEven (q / 2 ^ (e - 23)) : ℚ) - q / 2 ^ (e - 23)) * 2 ^ (e - 23) := by
    field_simp
  rw [key, abs_mul, abs_of_pos hu]
  calc |(roundEven (q / 2 ^ (e - 23)) : ℚ) - q / 2 ^ (e - 23)| * 2 ^ (e - 23)
      ≤ 1 / 2 * 2 ^ (e - 23) := mul_le_mul_of_nonneg_right hr hu.le
    _ = 2 ^ e / 16777216 := by rw [hsplit]; ring
    _ ≤ q / 16777216 := by apply div_le_div_of_nonneg_right hlo; norm_num

/-- A positive exact result in the binade `2^e <= q < 2^(e+1)` whose quotient by the unit
rounds to `n`: the binary32 result is `n * 2^(e-23)`. -/
theorem ofRat_pos (q : ℚ) (e n : Int) (hlo : (2 : ℚ) ^ e ≤ q) (hhi : q < 2 ^ (e + 1))
    (he : -126 ≤ e) (hn : roundEven (q / 2 ^ (e - 23)) = n)
    (hov : (n : ℚ) * 2 ^ (e - 23) < 2 ^ 128) :
    F32.ofRat q = F32.fin ((n : ℚ) * 2 ^ (e - 23)) := by
  have hq : 0 < q := lt_of_lt_of_le (by positivity) hlo
  have hr : roundMag |q| = (n : ℚ) * 2 ^ (e - 23) := by
    rw [abs_of_pos hq, roundMag_binade q e hlo hhi he, hn]
  unfold F32.ofRat
  rw [hr, if_neg (not_le.mpr hov), if_neg (not_lt.mpr hq.le)]

theorem ofRat_zero : F32.ofRat 0 = F32.fin 0 := by
  unfold F32.ofRat
  rw [abs_zero, roundMag_zero]
  norm_num

/-- A non-negative exact result that stays below `2^128` after rounding is stored as its
rounded value. -/
theorem ofRat_nonneg_fin (q : ℚ) (hq : 0 ≤ q) (hov : roundMag q < 2 ^ 128) :
    F32.ofRat q = F32.fin (roundMag q) := by
  unfold F32.ofRat
  rw [abs_of_nonneg hq, if_neg (not_le.mpr hov), if_neg (not_lt.mpr hq)]

/-- The result of rounding a non-negative exact result is non-negative. -/
theorem ofRat_nonneg (q : ℚ) (hq : 0 ≤ q) : F32.nonneg (F32.ofRat q) := by
  unfold F32.ofRat
  split_ifs with h1 h2
  · show decide (q < 0) = false
    exact decide_eq_false (not_lt.mpr hq)
  · exact absurd h2 (not_lt.mpr hq)
  · exact roundMag_nonneg _

theorem add_fin (a b : ℚ) : F32.add (F32.fin a) (F32.fin b) = F32.ofRat (a + b) := rfl

theorem sub_fin (a b : ℚ) : F32.sub (F32.fin a) (F32.fin b) = F32.ofRat (a - b) := by
  show F32.ofRat (a + -b) = F32.ofRat (a - b)
  rw [sub_eq_add_neg]

theorem mul_fin (a b : ℚ) : F32.mul (F32.fin a) (F32.fin b) = F32.ofRat (a * b) := rfl

theorem div_fin (a b : ℚ) (hb : b ≠ 0) :
    F32.div (F32.fin a) (F32.fin b) = F32.ofRat (a / b) := by
  show (if b = 0 then _ else F32.ofRat (a / b)) = _
  rw [if_neg hb]

/-- The constant `1.0f - EMA_ALPHA` is 0.75 exactly. -/
theorem one_sub_alpha : F32.sub (F32.fin 1) (F32.fin EMA_ALPHA) = F32.fin (3 / 4) := by
  rw [sub_fin]
  have h : (1 : ℚ) - EMA_ALPHA = 3 / 4 := by unfold EMA_ALPHA; norm_num
  rw [h, ofRat_pos _ (-1) 12582912 (by norm_num) (by norm_num) (by norm_num)
    (roundEven_near _ _ (by norm_num [abs_lt])) (by norm_num)]
  norm_num

/-! ## Smoothing in binary32 -/

/-- The bit pattern `0x3DCCCCCD` is the float written `0.1f`. -/
theorem decode32_tenth : decode32 1036831949 = F32.fin (13421773 / 134217728) := by
  unfold decode32
  rw [if_neg (by decide)]
  norm_num [f32]

/-- The bit pattern `0x3E4CCCCD` is the float written `0.2f`. -/
theorem decode32_fifth : decode32 1045220557 = F32.fin (13421773 / 67108864) := by
  unfold decode32
  rw [if_neg (by decide)]
  norm_num [f32]

/-- Blending the sample `0.2f` into the old value `0.1f` stores 0.125: the product
`0.75 * 0.1f` and the sum are both rounded. -/
theorem blend_tenth_fifth :
    F32.add (F32.mul (F32.fin EMA_ALPHA) (F32.fin (13421773 / 67108864)))
        (F32.mul (F32.sub (F32.fin 1) (F32.fin EMA_ALPHA)) (F32.fin (13421773 / 134217728)))
      = F32.fin (1 / 8) := by
  rw [one_sub_alpha, mul_fin, mul_fin]
  have h1 : F32.ofRat (EMA_ALPHA * (13421773 / 67108864)) = F32.fin (13421773 / 268435456) := by
    unfold EMA_ALPHA
    rw [ofRat_pos _ (-5) 13421773 (by norm_num) (by norm_num) (by norm_num)
      (roundEven_near _ _ (by norm_num [abs_lt])) (by norm_num)]
    norm_num
  have h2 : F32.ofRat (3 / 4 * (13421773 / 134217728)) = F32.fin (5033165 / 67108864) := by
    rw [ofRat_pos _ (-4) 10066330 (by norm_num) (by norm_num) (by norm_num)
      (roundEven_near _ _ (by norm_num [abs_lt])) (by norm_num)]
    norm_num
  rw [h1, h2, add_fin,
    ofRat_pos _ (-3) 8388608 (by norm_num) (by norm_num) (by norm_num)
      (roundEven_near _ _ (by norm_num [abs_lt])) (by norm_num)]
  norm_num

theorem isEq_zero_zero : F32.isEq (F32.fin 0) (F32.fin 0) = true := by
  simp [F32.isEq]

theorem isEq_fin_zero (q : ℚ) : F32.isEq (F32.fin q) (F32.fin 0) = decide (q = 0) := rfl

theorem runSmooth32_cons (e : Ema32) (p : Nat × Frame32) (fs : List (Nat × Frame32)) :
    runSmooth32 e (p :: fs) = runSmooth32 (smooth32 e p.1 p.2) fs := rfl

theorem runSmooth32_nil (e : Ema32) : runSmooth32 e [] = e := rfl

/-- One call of the smoothing statements, field by field, with the constants evaluated. -/
theorem smooth32_fields (e : Ema32) (ms : Nat) (f : Frame32) :
    (smooth32 e ms f).cpuEMA
        = (if F32.isEq e.cpuEMA (F32.fin 0) then f.cpu
           else F32.add (F32.mul (F32.fin 0.25) f.cpu) (F32.mul (F32.fin 0.75) e.cpuEMA))
      ∧ (smooth32 e ms f).ramEMA
        = (if F32.isEq e.ramEMA (F32.fin 0) then f.ram
           else F32.add (F32.mul (F32.fin 0.25) f.ram) (F32.mul (F32.fin 0.75) e.ramEMA))
      ∧ (smooth32 e ms f).tempEMA
        = (if F32.isEq e.tempEMA (F32.fin 0) then f.temp
           else F32.add (F32.mul (F32.fin 0.25) f.temp) (F32.mul (F32.fin 0.75) e.tempEMA))
      ∧ (smooth32 e ms f).latencyEMA
        = (if F32.isEq e.latencyEMA (F32.fin 0) then latency32 ms f.timestamp_ms
           else F32.add (F32.mul (F32.fin 0.25) (latency32 ms f.timestamp_ms))
             (F32.mul (F32.fin 0.75) e.latencyEMA)) := by
  have hα : F32.fin EMA_ALPHA = F32.fin 0.25 := by
    congr 1
    unfold EMA_ALPHA
    norm_num
  have hβ : F32.sub (F32.fin 1) (F32.fin EMA_ALPHA) = F32.fin 0.75 := by
    rw [one_sub_alpha]
    congr 1
    norm_num
  unfold smooth32
  dsimp only
  rw [hβ, hα]
  exact ⟨rfl, rfl, rfl, rfl⟩

/-- C14, as stated, fails because the blend is computed in binary32: with the old value
`0.1f` (bit pattern `0x3DCCCCCD`) and the sample `0.2f` (`0x3E4CCCCD`) the program stores
0.125, while `0.25 * sample + 0.75 * old` is `67108865 / 536870912`. -/
theorem C14_rounded_blend_counterexample :
    decode32 1036831949 = F32.fin (13421773 / 134217728)
      ∧ decode32 1045220557 = F32.fin (13421773 / 67108864)
      ∧ (smooth32 ⟨F32.fin (13421773 / 134217728), F32.fin 0, F32.fin 0, F32.fin 0⟩ 0
          ⟨F32.fin (13421773 / 67108864), F32.fin 0, F32.fin 0, F32.fin 0, 0⟩).cpuEMA
          = F32.fin (1 / 8)
      ∧ (1 / 8 : ℚ) ≠ 0.25 * (13421773 / 67108864) + 0.75 * (13421773 / 134217728) := by
  refine ⟨decode32_tenth, decode32_fifth, ?_, by norm_num⟩
  unfold smooth32
  dsimp only
  rw [isEq_fin_zero, blend_tenth_fifth]
  norm_num

/-- C14, amended: one step of the smoothing rule in `processFrame`, for each of `cpuEMA`,
`ramEMA`, `tempEMA` and `latencyEMA` independently and for every prior value `old` and
sample `s` (NaN and infinities included): the new value is `s` when `old == 0` (whether or
not frames were accepted before), and otherwise the binary32 value of `0.25*s + 0.75*old`,
the two products and the sum each rounded to nearest. -/
theorem C14_smoothing_step (e : Ema32) (ms : Nat) (f : Frame32) :
    (smooth32 e ms f).cpuEMA
        = (if F32.isEq e.cpuEMA (F32.fin 0) then f.cpu
           else F32.add (F32.mul (F32.fin 0.25) f.cpu) (F32.mul (F32.fin 0.75) e.cpuEMA))
      ∧ (smooth32 e ms f).ramEMA
        = (if F32.isEq e.ramEMA (F32.fin 0) then f.ram
           else F32.add (F32.mul (F32.fin 0.25) f.ram) (F32.mul (F32.fin 0.75) e.ramEMA))
      ∧ (smooth32 e ms f).tempEMA
        = (if F32.isEq e.tempEMA (F32.fin 0) then f.temp
           else F32.add (F32.mul (F32.fin 0.25) f.temp) (F32.mul (F32.fin 0.75) e.tempEMA))
      ∧ (smooth32 e ms f).latencyEMA
        = (if F32.isEq e.latencyEMA (F32.fin 0) then latency32 ms f.timestamp_ms
           else F32.add (F32.mul (F32.fin 0.25) (latency32 ms f.timestamp_ms))
             (F32.mul (F32.fin 0.75) e.latencyEMA))
      ∧ (F32.isEq e.cpuEMA (F32.fin 0) = true ↔ e.cpuEMA = F32.fin 0) :=
  ⟨(smooth32_fields e ms f).1, (smooth32_fields e ms f).2.1, (smooth32_fields e ms f).2.2.1,
    (smooth32_fields e ms f).2.2.2, by
      cases h : e.cpuEMA <;> simp [F32.isEq]⟩

/-- C7, as stated, fails in two ways.  After a first frame with cpu 0 and a second with cpu
4, `cpuEMA` is 4 (zero means "unset", so the second sample seeds again), not
`0.25 * 4 + 0.75 * 0 = 1`.  After a first frame with cpu `0.1f` and a second with cpu
`0.2f`, `cpuEMA` is 0.125, the rounded blend, not `0.25 * 0.2f + 0.75 * 0.1f`. -/
theorem C7_second_sample_counterexample :
    (runSmooth32 Ema32.init [cpuFrame32 0]).cpuEMA = F32.fin 0
      ∧ (runSmooth32 Ema32.init [cpuFrame32 0, cpuFrame32 4]).cpuEMA = F32.fin 4
      ∧ (4 : ℚ) ≠ 0.25 * 4 + 0.75 * 0
      ∧ (runSmooth32 Ema32.init [cpuFrame32 (13421773 / 134217728)]).cpuEMA
          = F32.fin (13421773 / 134217728)
      ∧ (runSmooth32 Ema32.init
          [cpuFrame32 (13421773 / 134217728), cpuFrame32 (13421773 / 67108864)]).cpuEMA
          = F32.fin (1 / 8)
      ∧ (1 / 8 : ℚ) ≠ 0.25 * (13421773 / 67108864) + 0.75 * (13421773 / 134217728) := by
  have h0 : ∀ q : ℚ, (smooth32 Ema32.init (cpuFrame32 q).1 (cpuFrame32 q).2).cpuEMA
      = F32.fin q := by
    intro q
    rw [(smooth32_fields _ _ _).1]
    exact if_pos isEq_zero_zero
  refine ⟨h0 0, ?_, by norm_num, h0 _, ?_, by norm_num⟩
  · rw [runSmooth32_cons, runSmooth32_cons, runSmooth32_nil, (smooth32_fields _ _ _).1, h0 0]
    exact if_pos isEq_zero_zero
  · rw [runSmooth32_cons, runSmooth32_cons, runSmooth32_nil]
    unfold smooth32
    dsimp only
    have h1 := h0 (13421773 / 134217728)
    unfold smooth32 at h1
    dsimp only at h1
    rw [h1, isEq_fin_zero]
    have hb := blend_tenth_fifth
    simp only [cpuFrame32]
    rw [hb]
    norm_num

/-- C7, amended: for every pair of samples `a`, `b` of an EMA-tracked quantity (cpu, ram,
temp, latency), starting from the initial state: after the first accepted frame carrying `a`
the EMA equals `a` exactly; after the second accepted frame carrying `b` the EMA equals `b`
when `a == 0`, and otherwise the binary32 value of `0.25*b + 0.75*a`, the two products and
the sum each rounded to nearest.  The latency samples are those computed from `millis()` and
the timestamps of the frames. -/
theorem C7_first_sample_seeds_second_blends (ms1 ms2 : Nat) (f1 f2 : Frame32) :
    ((smooth32 Ema32.init ms1 f1).cpuEMA = f1.cpu
      ∧ (smooth32 Ema32.init ms1 f1).ramEMA = f1.ram
      ∧ (smooth32 Ema32.init ms1 f1).tempEMA = f1.temp
      ∧ (smooth32 Ema32.init ms1 f1).latencyEMA = latency32 ms1 f1.timestamp_ms)
    ∧ ((smooth32 (smooth32 Ema32.init ms1 f1) ms2 f2).cpuEMA
          = (if F32.isEq f1.cpu (F32.fin 0) then f2.cpu
             else F32.add (F32.mul (F32.fin 0.25) f2.cpu) (F32.mul (F32.fin 0.75) f1.cpu))
      ∧ (smooth32 (smooth32 Ema32.init ms1 f1) ms2 f2).ramEMA
          = (if F32.isEq f1.ram (F32.fin 0) then f2.ram
             else F32.add (F32.mul (F32.fin 0.25) f2.ram) (F32.mul (F32.fin 0.75) f1.ram))
      ∧ (smooth32 (smooth32 Ema32.init ms1 f1) ms2 f2).tempEMA
          = (if F32.isEq f1.temp (F32.fin 0) then f2.temp
             else F32.add (F32.mul (F32.fin 0.25) f2.temp) (F32.mul (F32.fin 0.75) f1.temp))
      ∧ (smooth32 (smooth32 Ema32.init ms1 f1) ms2 f2).latencyEMA
          = (if F32.isEq (latency32 ms1 f1.timestamp_ms) (F32.fin 0)
             then latency32 ms2 f2.timestamp_ms
             else F32.add (F32.mul (F32.fin 0.25) (latency32 ms2 f2.timestamp_ms))
               (F32.mul (F32.fin 0.75) (latency32 ms1 f1.timestamp_ms)))) := by
  have h1 : (smooth32 Ema32.init ms1 f1).cpuEMA = f1.cpu
      ∧ (smooth32 Ema32.init ms1 f1).ramEMA = f1.ram
      ∧ (smooth32 Ema32.init ms1 f1).tempEMA = f1.temp
      ∧ (smooth32 Ema32.init ms1 f1).latencyEMA = latency32 ms1 f1.timestamp_ms := by
    simp [smooth32, Ema32.init, F32.isEq]
  obtain ⟨c1, r1, t1, l1⟩ := h1
  obtain ⟨c2, r2, t2, l2⟩ := smooth32_fields (smooth32 Ema32.init ms1 f1) ms2 f2
  rw [c1] at c2
  rw [r1] at r2
  rw [t1] at t2
  rw [l1] at l2
  exact ⟨⟨c1, r1, t1, l1⟩, c2, r2, t2, l2⟩

/-! ## Latency in binary32 -/

theorem ofRat_ne_nan (q : ℚ) : F32.ofRat q ≠ F32.nan := by
  unfold F32.ofRat
  split_ifs <;> exact fun h => F32.noConfusion h

theorem add_nan_right (a : F32) : F32.add a F32.nan = F32.nan := by
  cases a <;> rfl

/-- The conversion of a 32-bit unsigned value is finite, with a relative error of at most
`2^(-24)`. -/
theorem ofNat_u32 (n : Nat) (h : n < U32) :
    F32.ofNat n = F32.fin (roundMag n) ∧ |roundMag (n : ℚ) - n| ≤ (n : ℚ) / 16777216 := by
  have hn : (0 : ℚ) ≤ (n : ℚ) := Nat.cast_nonneg n
  have hu : (n : ℚ) < 4294967296 := by
    have : (n : ℚ) < ((4294967296 : Nat) : ℚ) := Nat.cast_lt.mpr h
    simpa using this
  have hrel : |roundMag (n : ℚ) - n| ≤ (n : ℚ) / 16777216 := by
    rcases Nat.eq_zero_or_pos n with h0 | h0
    · subst h0
      simp [roundMag_zero]
    · apply roundMag_rel
      have h1 : (1 : ℚ) ≤ (n : ℚ) := by exact_mod_cast h0
      have h2 : (2 : ℚ) ^ (-126 : Int) ≤ 1 := by norm_num
      linarith
  refine ⟨?_, hrel⟩
  apply ofRat_nonneg_fin _ hn
  rw [abs_le] at hrel
  have : roundMag (n : ℚ) ≤ n + n / 16777216 := by linarith
  have h128 : (8589934592 : ℚ) < 2 ^ 128 := by norm_num
  linarith

/-- The latency sample is the `fabs` of the float difference. -/
theorem latency32_eq_abs (ms : Nat) (ts_ms : F32) :
    latency32 ms ts_ms = F32.abs (F32.sub (F32.ofNat ms) ts_ms) := by
  unfold latency32
  dsimp only
  cases hx : F32.sub (F32.ofNat ms) ts_ms with
  | nan => rfl
  | inf s => cases s <;> rfl
  | fin q =>
    show (if decide (q < 0) = true then F32.fin |q| else F32.fin q) = F32.fin |q|
    by_cases hq : q < 0
    · rw [if_pos (decide_eq_true hq)]
    · rw [if_neg (by simpa using hq), abs_of_nonneg (not_lt.mp hq)]

theorem abs_nonneg32 (x : F32) (hx : x ≠ F32.nan) : F32.nonneg (F32.abs x) := by
  cases x with
  | nan => exact absurd rfl hx
  | inf s => rfl
  | fin q => exact abs_nonneg q

/-- With a 32-bit reading of `millis()` and a timestamp that is not NaN, the latency sample
is not NaN and is non-negative. -/
theorem latency32_nonneg (ms : Nat) (ts_ms : F32) (hms : ms < U32) (hts : ts_ms ≠ F32.nan) :
    F32.nonneg (latency32 ms ts_ms) := by
  rw [latency32_eq_abs]
  apply abs_nonneg32
  rw [(ofNat_u32 ms hms).1]
  cases ts_ms with
  | nan => exact absurd rfl hts
  | inf s => exact fun h => F32.noConfusion h
  | fin t =>
    rw [sub_fin]
    exact ofRat_ne_nan _

theorem add_nonneg32 (a b : F32) (ha : F32.nonneg a) (hb : F32.nonneg b) :
    F32.nonneg (F32.add a b) := by
  cases a with
  | nan => exact absurd ha (fun h => h)
  | inf s =>
    cases b with
    | nan => exact absurd hb (fun h => h)
    | inf t =>
      have hs : s = false := ha
      have ht : t = false := hb
      subst hs ht
      rfl
    | fin y => exact ha
  | fin x =>
    cases b with
    | nan => exact absurd hb (fun h => h)
    | inf t => exact hb
    | fin y =>
      have hx : 0 ≤ x := ha
      have hy : 0 ≤ y := hb
      exact ofRat_nonneg _ (add_nonneg hx hy)

theorem mul_pos_nonneg32 (c : ℚ) (hc : 0 < c) (b : F32) (hb : F32.nonneg b) :
    F32.nonneg (F32.mul (F32.fin c) b) := by
  cases b with
  | nan => exact absurd hb (fun h => h)
  | inf t =>
    have ht : t = false := hb
    subst ht
    show F32.nonneg (if c = 0 then F32.nan else F32.inf (xor (decide (c < 0)) false))
    rw [if_neg (ne_of_gt hc)]
    show xor (decide (c < 0)) false = false
    simp [not_lt.mpr hc.le]
  | fin y =>
    have hy : 0 ≤ y := hb
    exact ofRat_nonneg _ (mul_nonneg hc.le hy)

theorem smooth32_latency_nonneg (e : Ema32) (ms : Nat) (f : Frame32) (hms : ms < U32)
    (hts : f.timestamp_ms ≠ F32.nan) (he : F32.nonneg e.latencyEMA) :
    F32.nonneg (smooth32 e ms f).latencyEMA := by
  have hl := latency32_nonneg ms f.timestamp_ms hms hts
  unfold smooth32
  dsimp only
  split_ifs
  · exact hl
  · rw [one_sub_alpha]
    exact add_nonneg32 _ _ (mul_pos_nonneg32 _ (by unfold EMA_ALPHA; norm_num) _ hl)
      (mul_pos_nonneg32 _ (by norm_num) _ he)

theorem runSmooth32_latency_nonneg :
    ∀ (fs : List (Nat × Frame32)) (e : Ema32),
      (∀ p ∈ fs, p.1 < U32 ∧ p.2.timestamp_ms ≠ F32.nan) → F32.nonneg e.latencyEMA →
      F32.nonneg (runSmooth32 e fs).latencyEMA := by
  intro fs
  induction fs with
  | nil => intro e _ he; exact he
  | cons p fs ih =>
    intro e hfs he
    rw [runSmooth32_cons]
    obtain ⟨h1, h2⟩ := hfs p (List.mem_cons_self _ _)
    exact ih _ (fun q hq => hfs q (List.mem_cons_of_mem _ hq))
      (smooth32_latency_nonneg e p.1 p.2 h1 h2 he)

/-- The conversion `(float)16777217` gives 16777216 (a halfway case). -/
theorem ofNat_16777217 : F32.ofNat 16777217 = F32.fin 16777216 := by
  unfold F32.ofNat
  rw [ofRat_pos _ 24 8388608 (by norm_num) (by norm_num) (by norm_num)
    ((roundEven_tie _ 8388608 (by norm_num)).trans (by decide)) (by norm_num)]
  norm_num

/-- C16, as stated, fails in two ways.  The payload `nanPayload` carries the NaN bit pattern
`0x7FC00000` in its timestamp field; `processFrame` then stores NaN in `latencyEMA`, which
is not non-negative.  And with `millis() = 16777217` and timestamp 0 the latency sample is
16777216, not the absolute value of the difference, because `(float)millis()` is rounded. -/
theorem C16_latency_counterexample :
    nanPayload.length = PAYLOAD_LEN
      ∧ (decodeFrame32 nanPayload).timestamp_ms = F32.nan
      ∧ (smooth32 Ema32.init 1000 (decodeFrame32 nanPayload)).latencyEMA = F32.nan
      ∧ ¬ F32.nonneg (smooth32 Ema32.init 1000 (decodeFrame32 nanPayload)).latencyEMA
      ∧ latency32 16777217 (F32.fin 0) = F32.fin 16777216
      ∧ (16777216 : ℚ) ≠ |(16777217 : ℚ) - 0| := by
  have h1 : le32 nanPayload 12 = 2143289344 := by decide
  have h2 : (decodeFrame32 nanPayload).timestamp_ms = F32.nan := by
    show decode32 (le32 nanPayload 12) = F32.nan
    rw [h1]
    unfold decode32
    rw [if_pos (by decide), if_neg (by decide)]
  have h3 : (smooth32 Ema32.init 1000 (decodeFrame32 nanPayload)).latencyEMA = F32.nan := by
    rw [(smooth32_fields _ _ _).2.2.2, h2]
    show (if F32.isEq (F32.fin 0) (F32.fin 0) = true then latency32 1000 F32.nan else _) = _
    rw [if_pos isEq_zero_zero, latency32_eq_abs]
    show F32.abs (F32.add (F32.ofNat 1000) F32.nan) = F32.nan
    rw [add_nan_right]
    rfl
  refine ⟨by decide, h2, h3, ?_, ?_, by norm_num⟩
  · rw [h3]
    exact fun h => h
  · rw [latency32_eq_abs, ofNat_16777217, sub_fin,
      ofRat_pos _ 24 8388608 (by norm_num) (by norm_num) (by norm_num)
        (roundEven_near _ _ (by norm_num [abs_lt])) (by norm_num)]
    show F32.fin |(8388608 : ℚ) * 2 ^ ((24 : Int) - 23)| = F32.fin 16777216
    norm_num

/-- C16, amended: for every frame and local time the latency sample that `processFrame`
smooths is the binary32 value `fabs((float)millis() - ts_ms)`, the conversion and the
difference each rounded to nearest; and when no accepted frame has a NaN timestamp,
`latencyEMA` is non-negative in every state reachable from the initial state (the
per-second tick does not touch it). -/
theorem C16_latency_abs_and_nonneg (e : Ema32) (ms : Nat) (f : Frame32)
    (fs : List (Nat × Frame32))
    (hfs : ∀ p ∈ fs, p.1 < U32 ∧ p.2.timestamp_ms ≠ F32.nan) :
    latency32 ms f.timestamp_ms = F32.abs (F32.sub (F32.ofNat ms) f.timestamp_ms)
      ∧ (smooth32 e ms f).latencyEMA
          = (if F32.isEq e.latencyEMA (F32.fin 0) then latency32 ms f.timestamp_ms
             else F32.add (F32.mul (F32.fin 0.25) (latency32 ms f.timestamp_ms))
               (F32.mul (F32.fin 0.75) e.latencyEMA))
      ∧ F32.nonneg (runSmooth32 Ema32.init fs).latencyEMA :=
  ⟨latency32_eq_abs ms f.timestamp_ms, (smooth32_fields e ms f).2.2.2,
    runSmooth32_latency_nonneg fs Ema32.init hfs (le_refl (0 : ℚ))⟩

theorem C16_latency_abs_and_nonneg_witness :
    latency32 16777217 (cpuFrame32 1).2.timestamp_ms
        = F32.abs (F32.sub (F32.ofNat 16777217) (cpuFrame32 1).2.timestamp_ms)
      ∧ (smooth32 Ema32.init 16777217 (cpuFrame32 1).2).latencyEMA
          = (if F32.isEq Ema32.init.latencyEMA (F32.fin 0)
             then latency32 16777217 (cpuFrame32 1).2.timestamp_ms
             else F32.add (F32.mul (F32.fin 0.25) (latency32 16777217 (cpuFrame32 1).2.timestamp_ms))
               (F32.mul (F32.fin 0.75) Ema32.init.latencyEMA))
      ∧ F32.nonneg (runSmooth32 Ema32.init [cpuFrame32 1, cpuFrame32 2]).latencyEMA :=
  C16_latency_abs_and_nonneg Ema32.init 16777217 (cpuFrame32 1).2 [cpuFrame32 1, cpuFrame32 2]
    (by simp [cpuFrame32, U32])

/-! ## The loss percentage in binary32 -/

/-- A rounded value in the normal range lies within a factor `1 ± 2^(-24)` of the exact
one. -/
theorem roundMag_between (q : ℚ) (h : (2 : ℚ) ^ (-126 : Int) ≤ q) :
    q * (16777215 / 16777216) ≤ roundMag q ∧ roundMag q ≤ q * (16777217 / 16777216) := by
  have hr := roundMag_rel q h
  rw [abs_le] at hr
  constructor <;> linarith [hr.1, hr.2]

/-- Four successive relative errors between `b` and `a`: the two conversions, the product
and the quotient. -/
theorem loss_chain (x y X Y P Q a b : ℚ) (hb : 0 < b) (ha : 0 < a) (hx : 0 < x) (hy : 0 < y)
    (hX : x * b ≤ X ∧ X ≤ x * a) (hY : y * b ≤ Y ∧ Y ≤ y * a)
    (hP : 100 * X * b ≤ P ∧ P ≤ 100 * X * a) (hQ : P / Y * b ≤ Q ∧ Q ≤ P / Y * a) :
    100 * x / y * (b ^ 3 / a) ≤ Q ∧ Q ≤ 100 * x / y * (a ^ 3 / b) := by
  have hY0 : 0 < Y := lt_of_lt_of_le (mul_pos hy hb) hY.1
  have hPhi : P ≤ 100 * (x * a) * a :=
    le_trans hP.2 (mul_le_mul_of_nonneg_right
      (mul_le_mul_of_nonneg_left hX.2 (by norm_num)) ha.le)
  have hPlo : 100 * (x * b) * b ≤ P :=
    le_trans (mul_le_mul_of_nonneg_right
      (mul_le_mul_of_nonneg_left hX.1 (by norm_num)) hb.le) hP.1
  have hP0 : 0 < P := lt_of_lt_of_le (by positivity) hPlo
  have hup : P / Y ≤ 100 * (x * a) * a / (y * b) :=
    div_le_div₀ (by positivity) hPhi (by positivity) hY.1
  have hlow : 100 * (x * b) * b / (y * a) ≤ P / Y :=
    div_le_div₀ hP0.le hPlo hY0 hY.2
  constructor
  · have h1 : 100 * (x * b) * b / (y * a) * b ≤ P / Y * b :=
      mul_le_mul_of_nonneg_right hlow hb.le
    have h2 : 100 * x / y * (b ^ 3 / a) = 100 * (x * b) * b / (y * a) * b := by
      field_simp
      ring
    rw [h2]
    exact le_trans h1 hQ.1
  · have h1 : P / Y * a ≤ 100 * (x * a) * a / (y * b) * a :=
      mul_le_mul_of_nonneg_right hup ha.le
    have h2 : 100 * x / y * (a ^ 3 / b) = 100 * (x * a) * a / (y * b) * a := by
      field_simp
      ring
    rw [h2]
    exact le_trans hQ.2 h1

/-- The computation of `drawStaticView` on a lost count `x >= 1` and a sum `y` below
`2^32`, after the two conversions: the result is finite and within a relative error of
`2^(-21)` of `100 * x / y`. -/
theorem loss_quotient_accuracy (x y X Y : ℚ) (hx1 : 1 ≤ x) (hxy : x ≤ y)
    (hy : y ≤ 4294967296)
    (hX : x * (16777215 / 16777216) ≤ X ∧ X ≤ x * (16777217 / 16777216))
    (hY : y * (16777215 / 16777216) ≤ Y ∧ Y ≤ y * (16777217 / 16777216)) :
    ∃ v : ℚ, F32.div (F32.ofRat (100 * X)) (F32.fin Y) = F32.fin v
      ∧ |v - 100 * x / y| ≤ 100 * x / y / 2097152 := by
  have hy1 : 1 ≤ y := le_trans hx1 hxy
  have hx0 : 0 < x := by linarith
  have hy0 : 0 < y := by linarith
  have hXlo : 1 / 2 ≤ X := by linarith [hX.1]
  have hXhi : X ≤ 8589934592 := by linarith [hX.2]
  have hYlo : 1 / 2 ≤ Y := by linarith [hY.1]
  have hYhi : Y ≤ 8589934592 := by linarith [hY.2]
  have hY0 : 0 < Y := by linarith
  have hsmall : (2 : ℚ) ^ (-126 : Int) ≤ 1 / 1000000000000 := by norm_num
  have h128 : (10000000000000 : ℚ) < 2 ^ 128 := by norm_num
  -- the product
  have hP := roundMag_between (100 * X) (le_trans hsmall (by linarith))
  have hPlo : 25 ≤ roundMag (100 * X) := by linarith [hP.1]
  have hPhi : roundMag (100 * X) ≤ 1717986918400 := by linarith [hP.2]
  have hPfin : F32.ofRat (100 * X) = F32.fin (roundMag (100 * X)) :=
    ofRat_nonneg_fin _ (by linarith) (lt_trans (by linarith) h128)
  rw [hPfin, div_fin _ _ (ne_of_gt hY0)]
  -- the quotient
  have hQlo : 25 / 8589934592 ≤ roundMag (100 * X) / Y :=
    div_le_div₀ (by linarith) hPlo hY0 hYhi
  have hQhi : roundMag (100 * X) / Y ≤ 1717986918400 / (1 / 2) :=
    div_le_div₀ (by norm_num) hPhi (by norm_num) hYlo
  have hnorm : (2 : ℚ) ^ (-126 : Int) ≤ roundMag (100 * X) / Y := by
    have : (1 : ℚ) / 1000000000000 ≤ 25 / 8589934592 := by norm_num
    exact le_trans hsmall (by linarith)
  have hR := roundMag_between (roundMag (100 * X) / Y) hnorm
  have hRfin : F32.ofRat (roundMag (100 * X) / Y)
      = F32.fin (roundMag (roundMag (100 * X) / Y)) := by
    apply ofRat_nonneg_fin _ (by linarith)
    have h3 : (1717986918400 : ℚ) / (1 / 2) = 3435973836800 := by norm_num
    rw [h3] at hQhi
    have h4 : roundMag (roundMag (100 * X) / Y) < 10000000000000 := by linarith [hR.2]
    exact lt_trans h4 h128
  refine ⟨_, hRfin, ?_⟩
  obtain ⟨hlo, hhi⟩ := loss_chain x y X Y (roundMag (100 * X))
    (roundMag (roundMag (100 * X) / Y)) (16777217 / 16777216) (16777215 / 16777216)
    (by norm_num) (by norm_num) hx0 hy0 hX hY hP hR
  have hE : 0 ≤ 100 * x / y := by positivity
  have hcl : (1 : ℚ) - 1 / 2097152 ≤ (16777215 / 16777216) ^ 3 / (16777217 / 16777216) := by
    norm_num
  have hch : ((16777217 : ℚ) / 16777216) ^ 3 / (16777215 / 16777216) ≤ 1 + 1 / 2097152 := by
    norm_num
  have h1 := mul_le_mul_of_nonneg_left hcl hE
  have h2 := mul_le_mul_of_nonneg_left hch hE
  rw [abs_le]
  constructor <;> linarith

theorem lossPct_wrapped_zero (s : Stats) (h : (s.windowRecv + s.windowLost) % U32 = 0) :
    lossPct s = F32.fin 0 := by
  unfold lossPct
  rw [if_neg (by omega)]

theorem lossPct_expr (s : Stats) (h : (s.windowRecv + s.windowLost) % U32 ≠ 0) :
    lossPct s = F32.div (F32.mul (F32.fin 100) (F32.ofNat s.windowLost))
      (F32.ofNat ((s.windowRecv + s.windowLost) % U32)) := by
  unfold lossPct
  rw [if_pos (by omega)]

/-- The conversion of a positive 32-bit value is a positive number. -/
theorem ofNat_u32_pos (n : Nat) (h0 : 0 < n) (h : n < U32) :
    F32.ofNat n = F32.fin (roundMag n) ∧ 0 < roundMag (n : ℚ)
      ∧ (n : ℚ) * (16777215 / 16777216) ≤ roundMag n
      ∧ roundMag (n : ℚ) ≤ (n : ℚ) * (16777217 / 16777216) := by
  have h1 : (1 : ℚ) ≤ (n : ℚ) := by exact_mod_cast h0
  have h2 : (2 : ℚ) ^ (-126 : Int) ≤ 1 := by norm_num
  obtain ⟨hlo, hhi⟩ := roundMag_between (n : ℚ) (le_trans h2 h1)
  exact ⟨(ofNat_u32 n h).1, by linarith, hlo, hhi⟩

/-- Without wrap of the 32-bit sum, the loss percentage is a finite non-negative number
within a relative error of `2^(-21)` of `100 * windowLost / (windowRecv + windowLost)`. -/
theorem lossPct_accuracy (s : Stats) (hpos : 0 < s.windowRecv + s.windowLost)
    (hnw : s.windowRecv + s.windowLost < U32) :
    ∃ v : ℚ, lossPct s = F32.fin v ∧ 0 ≤ v
      ∧ |v - 100 * (s.windowLost : ℚ) / ((s.windowRecv : ℚ) + (s.windowLost : ℚ))|
          ≤ 100 * (s.windowLost : ℚ) / ((s.windowRecv : ℚ) + (s.windowLost : ℚ)) / 2097152 := by
  have hmod : (s.windowRecv + s.windowLost) % U32 = s.windowRecv + s.windowLost :=
    Nat.mod_eq_of_lt hnw
  rw [lossPct_expr s (by omega), hmod]
  obtain ⟨hY, hY0, hYlo, hYhi⟩ := ofNat_u32_pos (s.windowRecv + s.windowLost) hpos hnw
  have hcast : ((s.windowRecv + s.windowLost : Nat) : ℚ)
      = (s.windowRecv : ℚ) + (s.windowLost : ℚ) := Nat.cast_add _ _
  rw [hcast] at hY hY0 hYlo hYhi
  rcases Nat.eq_zero_or_pos s.windowLost with hx | hx
  · refine ⟨0, ?_, le_refl 0, ?_⟩
    · have h0 : F32.ofNat s.windowLost = F32.fin 0 := by
        rw [hx]
        show F32.ofRat ((0 : Nat) : ℚ) = _
        rw [Nat.cast_zero, ofRat_zero]
      rw [hY, h0, mul_fin, mul_zero, ofRat_zero, div_fin _ _ (ne_of_gt hY0), zero_div,
        ofRat_zero]
    · rw [hx]
      simp
  · obtain ⟨hX, _, hXlo, hXhi⟩ := ofNat_u32_pos s.windowLost hx (by omega)
    rw [hX, hY, mul_fin]
    have hx1 : (1 : ℚ) ≤ (s.windowLost : ℚ) := by exact_mod_cast hx
    have hxy : (s.windowLost : ℚ) ≤ (s.windowRecv : ℚ) + (s.windowLost : ℚ) := by
      have : (0 : ℚ) ≤ (s.windowRecv : ℚ) := Nat.cast_nonneg _
      linarith
    have hy : (s.windowRecv : ℚ) + (s.windowLost : ℚ) ≤ 4294967296 := by
      have : ((s.windowRecv + s.windowLost : Nat) : ℚ) < ((4294967296 : Nat) : ℚ) :=
        Nat.cast_lt.mpr hnw
      rw [hcast] at this
      have h4 : ((4294967296 : Nat) : ℚ) = 4294967296 := by norm_num
      linarith
    obtain ⟨v, hv, hacc⟩ := loss_quotient_accuracy _ _ _ _ hx1 hxy hy ⟨hXlo, hXhi⟩ ⟨hYlo, hYhi⟩
    refine ⟨v, hv, ?_, hacc⟩
    have hE : 0 ≤ 100 * (s.windowLost : ℚ) / ((s.windowRecv : ℚ) + (s.windowLost : ℚ)) := by
      positivity
    rw [abs_le] at hacc
    linarith [hacc.1]

/-- Whether or not the sum wraps, the loss percentage is never negative and never NaN. -/
theorem lossPct_nonneg (s : Stats) : F32.nonneg (lossPct s) := by
  by_cases h : (s.windowRecv + s.windowLost) % U32 = 0
  · rw [lossPct_wrapped_zero s h]
    exact le_refl (0 : ℚ)
  · rw [lossPct_expr s h]
    obtain ⟨hY, hY0, _, _⟩ := ofNat_u32_pos ((s.windowRecv + s.windowLost) % U32)
      (Nat.pos_of_ne_zero h) (Nat.mod_lt _ (by decide))
    rw [hY]
    have hnum : F32.nonneg (F32.mul (F32.fin 100) (F32.ofNat s.windowLost)) :=
      mul_pos_nonneg32 100 (by norm_num) _ (ofRat_nonneg _ (Nat.cast_nonneg _))
    cases hm : F32.mul (F32.fin 100) (F32.ofNat s.windowLost) with
    | nan => rw [hm] at hnum; exact absurd hnum (fun h => h)
    | inf t =>
      rw [hm] at hnum
      have ht : t = false := hnum
      subst ht
      show xor false (decide (roundMag _ < 0)) = false
      simp [not_lt.mpr hY0.le]
    | fin p =>
      rw [hm] at hnum
      have hp : 0 ≤ p := hnum
      rw [div_fin _ _ (ne_of_gt hY0)]
      exact ofRat_nonneg _ (div_nonneg hp hY0.le)

/-- The loss percentage for the counters `windowRecv = 5`, `windowLost = 2`: the quotient
`200 / 7` is rounded to `14979657 / 524288`. -/
theorem loss_5_2 :
    F32.div (F32.mul (F32.fin 100) (F32.ofNat 2)) (F32.ofNat 7)
      = F32.fin (14979657 / 524288) := by
  have h2 : F32.ofNat 2 = F32.fin 2 := by
    unfold F32.ofNat
    rw [show ((2 : Nat) : ℚ) = 2 by norm_num,
      ofRat_pos _ 1 8388608 (by norm_num) (by norm_num) (by norm_num)
        (roundEven_near _ _ (by norm_num [abs_lt])) (by norm_num)]
    norm_num
  have h7 : F32.ofNat 7 = F32.fin 7 := by
    unfold F32.ofNat
    rw [show ((7 : Nat) : ℚ) = 7 by norm_num,
      ofRat_pos _ 2 14680064 (by norm_num) (by norm_num) (by norm_num)
        (roundEven_near _ _ (by norm_num [abs_lt])) (by norm_num)]
    norm_num
  have h200 : F32.ofRat (100 * 2) = F32.fin 200 := by
    rw [ofRat_pos _ 7 13107200 (by norm_num) (by norm_num) (by norm_num)
      (roundEven_near _ _ (by norm_num [abs_lt])) (by norm_num)]
    norm_num
  rw [h2, h7, mul_fin, h200, div_fin _ _ (by norm_num),
    ofRat_pos _ 4 14979657 (by norm_num) (by norm_num) (by norm_num)
      (roundEven_near _ _ (by norm_num [abs_lt])) (by norm_num)]
  norm_num

/-- The loss percentage for the counters `windowRecv = 2`, `windowLost = 21474855`: both
conversions give 21474856, the product is rounded up and the quotient is `100 + 2^(-17)`. -/
theorem loss_2_21474855 :
    F32.div (F32.mul (F32.fin 100) (F32.ofNat 21474855)) (F32.ofNat 21474857)
      = F32.fin (13107201 / 131072) := by
  have hx : F32.ofNat 21474855 = F32.fin 21474856 := by
    unfold F32.ofNat
    rw [show ((21474855 : Nat) : ℚ) = 21474855 by norm_num,
      ofRat_pos _ 24 10737428 (by norm_num) (by norm_num) (by norm_num)
        ((roundEven_tie _ 10737427 (by norm_num)).trans (by decide)) (by norm_num)]
    norm_num
  have hy : F32.ofNat 21474857 = F32.fin 21474856 := by
    unfold F32.ofNat
    rw [show ((21474857 : Nat) : ℚ) = 21474857 by norm_num,
      ofRat_pos _ 24 10737428 (by norm_num) (by norm_num) (by norm_num)
        ((roundEven_tie _ 10737428 (by norm_num)).trans (by decide)) (by norm_num)]
    norm_num
  have hp : F32.ofRat (100 * 21474856) = F32.fin 2147485696 := by
    rw [ofRat_pos _ 31 8388616 (by norm_num) (by norm_num) (by norm_num)
      (roundEven_near _ _ (by norm_num [abs_lt])) (by norm_num)]
    norm_num
  rw [hx, hy, mul_fin, hp, div_fin _ _ (by norm_num),
    ofRat_pos _ 6 13107201 (by norm_num) (by norm_num) (by norm_num)
      (roundEven_near _ _ (by norm_num [abs_lt])) (by norm_num)]
  norm_num

/-- The loss percentage for the counters `windowRecv = 4`, `windowLost = 0xFFFFFFFD`, whose
32-bit sum is 1: `(float)windowLost` is `2^32` and the result is `429496729600`. -/
theorem loss_4_wrapped :
    F32.div (F32.mul (F32.fin 100) (F32.ofNat 4294967293)) (F32.ofNat 1)
      = F32.fin 429496729600 := by
  have hx : F32.ofNat 4294967293 = F32.fin 4294967296 := by
    unfold F32.ofNat
    rw [show ((4294967293 : Nat) : ℚ) = 4294967293 by norm_num,
      ofRat_pos _ 31 16777216 (by norm_num) (by norm_num) (by norm_num)
        (roundEven_near _ _ (by norm_num [abs_lt])) (by norm_num)]
    norm_num
  have hy : F32.ofNat 1 = F32.fin 1 := by
    unfold F32.ofNat
    rw [show ((1 : Nat) : ℚ) = 1 by norm_num,
      ofRat_pos _ 0 8388608 (by norm_num) (by norm_num) (by norm_num)
        (roundEven_near _ _ (by norm_num [abs_lt])) (by norm_num)]
    norm_num
  have hp : F32.ofRat (100 * 4294967296) = F32.fin 429496729600 := by
    rw [ofRat_pos _ 38 13107200 (by norm_num) (by norm_num) (by norm_num)
      (roundEven_near _ _ (by norm_num [abs_lt])) (by norm_num)]
    norm_num
  rw [hx, hy, mul_fin, hp, div_fin _ _ (by norm_num),
    ofRat_pos _ 38 13107200 (by norm_num) (by norm_num) (by norm_num)
      (roundEven_near _ _ (by norm_num [abs_lt])) (by norm_num)]
  norm_num

/-- C10, as stated, fails in two ways.  After the frames with sequence numbers
`0, 0xFFFFFFFE, 0xFFFFFFFE` the window counters are 3 and `0xFFFFFFFD`: their sum is not
zero, but the 32-bit sum is, and the loss percentage computed is 0.  After the frames with
sequence numbers `5, 6, 7, 10, 11` the counters are 5 and 2 and the loss percentage computed
is `14979657 / 524288`, the binary32 quotient, not `100 * 2 / (5 + 2)`. -/
theorem C10_wrapped_or_rounded_counterexample :
    (runFrames Stats.init ([0, 4294967294, 4294967294].map seqFrame)).windowRecv = 3
      ∧ (runFrames Stats.init ([0, 4294967294, 4294967294].map seqFrame)).windowLost
          = 4294967293
      ∧ lossPct (runFrames Stats.init ([0, 4294967294, 4294967294].map seqFrame)) = F32.fin 0
      ∧ (0 : ℚ) ≠ 100 * 4294967293 / (3 + 4294967293)
      ∧ (runFrames Stats.init ([5, 6, 7, 10, 11].map seqFrame)).windowRecv = 5
      ∧ (runFrames Stats.init ([5, 6, 7, 10, 11].map seqFrame)).windowLost = 2
      ∧ lossPct (runFrames Stats.init ([5, 6, 7, 10, 11].map seqFrame))
          = F32.fin (14979657 / 524288)
      ∧ (14979657 / 524288 : ℚ) ≠ 100 * 2 / (5 + 2) := by
  have hr : (runFrames Stats.init ([0, 4294967294, 4294967294].map seqFrame)).windowRecv = 3 := by
    decide
  have hl : (runFrames Stats.init ([0, 4294967294, 4294967294].map seqFrame)).windowLost
      = 4294967293 := by
    decide
  have hr5 : (runFrames Stats.init ([5, 6, 7, 10, 11].map seqFrame)).windowRecv = 5 := by decide
  have hl5 : (runFrames Stats.init ([5, 6, 7, 10, 11].map seqFrame)).windowLost = 2 := by decide
  refine ⟨hr, hl, ?_, by norm_num, hr5, hl5, ?_, by norm_num⟩
  · exact lossPct_wrapped_zero _ (by rw [hr, hl]; decide)
  · rw [lossPct_expr _ (by rw [hr5, hl5]; decide), hr5, hl5]
    exact loss_5_2

/-- C10, amended: the loss percentage computed in `drawStaticView` is the binary32 value of
`(100.0f * (float)windowLost) / (float)S`, where `S` is the 32-bit sum
`(windowRecv + windowLost) mod 2^32`, whenever `S` is not zero; for every pair of window
counters whose sum is non-zero and below `2^32` it is a finite number within a relative
error of `2^(-21)` of `100 * windowLost / (windowRecv + windowLost)`; and it equals 0 when
`windowRecv = 0` and `windowLost = 0` (no division by zero). -/
theorem C10_loss_percentage (s t z : Stats)
    (hs : (s.windowRecv + s.windowLost) % U32 ≠ 0)
    (ht : 0 < t.windowRecv + t.windowLost) (htu : t.windowRecv + t.windowLost < U32)
    (hz : z.windowRecv = 0 ∧ z.windowLost = 0) :
    lossPct s = F32.div (F32.mul (F32.fin 100) (F32.ofNat s.windowLost))
        (F32.ofNat ((s.windowRecv + s.windowLost) % U32))
      ∧ (∃ v : ℚ, lossPct t = F32.fin v ∧ 0 ≤ v
          ∧ |v - 100 * (t.windowLost : ℚ) / ((t.windowRecv : ℚ) + (t.windowLost : ℚ))|
              ≤ 100 * (t.windowLost : ℚ) / ((t.windowRecv : ℚ) + (t.windowLost : ℚ))
                  / 2097152)
      ∧ lossPct z = F32.fin 0 :=
  ⟨lossPct_expr s hs, lossPct_accuracy t ht htu,
    lossPct_wrapped_zero z (by rw [hz.1, hz.2]; decide)⟩

theorem C10_loss_percentage_witness :
    lossPct (runFrames Stats.init ([5, 6, 7, 10, 11].map seqFrame))
        = F32.div (F32.mul (F32.fin 100)
            (F32.ofNat (runFrames Stats.init ([5, 6, 7, 10, 11].map seqFrame)).windowLost))
          (F32.ofNat (((runFrames Stats.init ([5, 6, 7, 10, 11].map seqFrame)).windowRecv
            + (runFrames Stats.init ([5, 6, 7, 10, 11].map seqFrame)).windowLost) % U32))
      ∧ (∃ v : ℚ, lossPct (runFrames Stats.init ([5, 6, 7, 10, 11].map seqFrame)) = F32.fin v
          ∧ 0 ≤ v
          ∧ |v - 100 * ((runFrames Stats.init ([5, 6, 7, 10, 11].map seqFrame)).windowLost : ℚ)
                / (((runFrames Stats.init ([5, 6, 7, 10, 11].map seqFrame)).windowRecv : ℚ)
                  + ((runFrames Stats.init ([5, 6, 7, 10, 11].map seqFrame)).windowLost : ℚ))|
              ≤ 100 * ((runFrames Stats.init ([5, 6, 7, 10, 11].map seqFrame)).windowLost : ℚ)
                / (((runFrames Stats.init ([5, 6, 7, 10, 11].map seqFrame)).windowRecv : ℚ)
                  + ((runFrames Stats.init ([5, 6, 7, 10, 11].map seqFrame)).windowLost : ℚ))
                / 2097152)
      ∧ lossPct Stats.init = F32.fin 0 :=
  C10_loss_percentage (runFrames Stats.init ([5, 6, 7, 10, 11].map seqFrame))
    (runFrames Stats.init ([5, 6, 7, 10, 11].map seqFrame)) Stats.init
    (by decide) (by decide) (by decide) (by decide)

/-- C17, as stated, fails in two ways.  After the frames with sequence numbers 0 and
21474856 the window counters are 2 and 21474855, far from any wrap, and the loss percentage
computed in binary32 is `100 + 2^(-17)`, above 100.  After the frames with sequence numbers
`0, 0xFFFFFFFE, 0xFFFFFFFE, 0xFFFFFFFE` the counters are 4 and `0xFFFFFFFD`, their 32-bit
sum is 1 and the loss percentage computed is `429496729600`. -/
theorem C17_loss_above_100_counterexample :
    (runEvents Stats.init
        [Event.frame 0 (seqFrame 0).2, Event.frame 0 (seqFrame 21474856).2]).windowRecv = 2
      ∧ (runEvents Stats.init
        [Event.frame 0 (seqFrame 0).2, Event.frame 0 (seqFrame 21474856).2]).windowLost
          = 21474855
      ∧ lossPct (runEvents Stats.init
        [Event.frame 0 (seqFrame 0).2, Event.frame 0 (seqFrame 21474856).2])
          = F32.fin (13107201 / 131072)
      ∧ (100 : ℚ) < 13107201 / 131072
      ∧ (runEvents Stats.init
        [Event.frame 0 (seqFrame 0).2, Event.frame 0 (seqFrame 4294967294).2,
          Event.frame 0 (seqFrame 4294967294).2, Event.frame 0 (seqFrame 4294967294).2]).windowRecv
          = 4
      ∧ (runEvents Stats.init
        [Event.frame 0 (seqFrame 0).2, Event.frame 0 (seqFrame 4294967294).2,
          Event.frame 0 (seqFrame 4294967294).2, Event.frame 0 (seqFrame 4294967294).2]).windowLost
          = 4294967293
      ∧ lossPct (runEvents Stats.init
        [Event.frame 0 (seqFrame 0).2, Event.frame 0 (seqFrame 4294967294).2,
          Event.frame 0 (seqFrame 4294967294).2, Event.frame 0 (seqFrame 4294967294).2])
          = F32.fin 429496729600
      ∧ (100 : ℚ) < 429496729600 := by
  have hr : (runEvents Stats.init
      [Event.frame 0 (seqFrame 0).2, Event.frame 0 (seqFrame 21474856).2]).windowRecv = 2 := by
    decide
  have hl : (runEvents Stats.init
      [Event.frame 0 (seqFrame 0).2, Event.frame 0 (seqFrame 21474856).2]).windowLost
      = 21474855 := by
    decide
  have hr4 : (runEvents Stats.init
      [Event.frame 0 (seqFrame 0).2, Event.frame 0 (seqFrame 4294967294).2,
        Event.frame 0 (seqFrame 4294967294).2, Event.frame 0 (seqFrame 4294967294).2]).windowRecv
      = 4 := by decide
  have hl4 : (runEvents Stats.init
      [Event.frame 0 (seqFrame 0).2, Event.frame 0 (seqFrame 4294967294).2,
        Event.frame 0 (seqFrame 4294967294).2, Event.frame 0 (seqFrame 4294967294).2]).windowLost
      = 4294967293 := by decide
  refine ⟨hr, hl, ?_, by norm_num, hr4, hl4, ?_, by norm_num⟩
  · rw [lossPct_expr _ (by rw [hr, hl]; decide), hr, hl]
    exact loss_2_21474855
  · rw [lossPct_expr _ (by rw [hr4, hl4]; decide), hr4, hl4]
    exact loss_4_wrapped

/-- C17, amended: in every state reachable from the initial state by any interleaving of
accepted frames (with arbitrary sequence numbers) and per-second ticks, the loss percentage
computed by `drawStaticView` is never negative and never NaN; and whenever
`windowRecv + windowLost` is below `2^32` (the 32-bit sum has not wrapped) it is a finite
number between 0 and `100 * (1 + 2^(-21))`: float rounding can take it above 100, but not
further. -/
theorem C17_loss_percentage_range (es es0 : List Event)
    (h : (runEvents Stats.init es).windowRecv + (runEvents Stats.init es).windowLost < U32) :
    F32.nonneg (lossPct (runEvents Stats.init es0))
      ∧ ∃ v : ℚ, lossPct (runEvents Stats.init es) = F32.fin v ∧ 0 ≤ v
          ∧ v ≤ 100 * (1 + 1 / 2097152) := by
  refine ⟨lossPct_nonneg _, ?_⟩
  rcases Nat.eq_zero_or_pos ((runEvents Stats.init es).windowRecv
      + (runEvents Stats.init es).windowLost) with h0 | h0
  · exact ⟨0, lossPct_wrapped_zero _ (by rw [h0]; decide), le_refl 0, by norm_num⟩
  · obtain ⟨v, hv, hv0, hacc⟩ := lossPct_accuracy _ h0 h
    refine ⟨v, hv, hv0, ?_⟩
    have hden : (0 : ℚ) < ((runEvents Stats.init es).windowRecv : ℚ)
        + ((runEvents Stats.init es).windowLost : ℚ) := by
      have : (0 : ℚ) < (((runEvents Stats.init es).windowRecv
          + (runEvents Stats.init es).windowLost : Nat) : ℚ) := Nat.cast_pos.mpr h0
      rwa [Nat.cast_add] at this
    have hE : 100 * ((runEvents Stats.init es).windowLost : ℚ)
        / (((runEvents Stats.init es).windowRecv : ℚ)
          + ((runEvents Stats.init es).windowLost : ℚ)) ≤ 100 := by
      rw [div_le_iff₀ hden]
      have : (0 : ℚ) ≤ ((runEvents Stats.init es).windowRecv : ℚ) := Nat.cast_nonneg _
      linarith
    rw [abs_le] at hacc
    linarith [hacc.2]

theorem C17_loss_percentage_range_witness :
    F32.nonneg (lossPct (runEvents Stats.init
        [Event.frame 0 (seqFrame 0).2, Event.frame 0 (seqFrame 4294967294).2,
          Event.frame 0 (seqFrame 4294967294).2, Event.frame 0 (seqFrame 4294967294).2]))
      ∧ ∃ v : ℚ, lossPct (runEvents Stats.init
          [Event.frame 0 (seqFrame 0).2, Event.tick, Event.frame 0 (seqFrame 21474856).2])
            = F32.fin v ∧ 0 ≤ v ∧ v ≤ 100 * (1 + 1 / 2097152) :=
  C17_loss_percentage_range
    [Event.frame 0 (seqFrame 0).2, Event.tick, Event.frame 0 (seqFrame 21474856).2]
    [Event.frame 0 (seqFrame 0).2, Event.frame 0 (seqFrame 4294967294).2,
      Event.frame 0 (seqFrame 4294967294).2, Event.frame 0 (seqFrame 4294967294).2] (by decide)

end EspMonitor
